import Mathlib

/-!
Verification development for the bookmark-manager AI organization engine.

The definitions below are a shallow embedding of the TypeScript source:
  * the tree data model and plan applier from `src/unnamed/part_007`
    (functions `applyOrganizationPlan`, `applyDuplicateMerging`,
    `applySuggestions`, `createFolderStructure`, `removeBookmarkById`,
    `addBookmarkToPath`, `ensureFolderPath`);
  * the duplicate detector `detectDuplicates` / `selectPrimaryBookmark`
    from `src/unnamed/part_007`;
  * the conflict identifier `identifyConflicts` from `src/unnamed/part_007`;
  * the batch organizer `organizeBookmarksInParallel` / `organizeBookmarks`
    from `src/unnamed/part_007`;
  * the response parsers `parseBatchAISuggestions` (part_007) and
    `parseAISuggestion` (src/services/ai/bookmarkOrganizer.ts);
  * the transport retry wrapper `fetchWithRetry`
    (src/services/ai/fetchWrapper.ts).

JavaScript numbers that carry confidence values are modelled as rationals.
`crypto.randomUUID()` and `Date.now()` (used only to mint fresh folder ids
and creation dates) are modelled by fixed constants: no claim depends on
the actual values of freshly minted folder ids.
-/

namespace BookmarkAI

/-- Model of `Bookmark` from src/types.ts: id, title, url, optional addDate/icon, tags. -/
structure Bookmark where
  id : String
  title : String
  url : String
  addDate : Option String := none
  icon : Option String := none
  tags : List String := []
deriving DecidableEq, Repr

/-- Model of `BookmarkNode = Bookmark | BookmarkFolder` from src/types.ts.
A folder carries id, name, children and an optional addDate. -/
inductive BookmarkNode where
  | bookmark (b : Bookmark)
  | folder (id : String) (name : String) (children : List BookmarkNode) (addDate : Option String)
deriving Repr

/-- Models `crypto.randomUUID()` for freshly created folders.  No claim
depends on the value of a fresh folder id, so it is a fixed constant. -/
def freshFolderId : String := "00000000-0000-0000-0000-000000000000"

/-- Models `new Date().getTime().toString()` for freshly created folders. -/
def freshAddDate : String := "0"

/-- Model of the fixed path delimiter " > " used throughout the source. -/
def pathSep : String := " > "

/-! ### Character-list string primitives

The Lean core `String` functions (`trim`, `splitOn`, `toLower`,
`startsWith`, ...) are implemented with position-based loops that the
kernel cannot reduce, so the embedding uses its own structural
implementations over the underlying character lists; each mirrors the
corresponding JavaScript string operation. -/

/-- Whitespace characters recognised by `trim` and by JSON parsing. -/
def isWsChar (c : Char) : Bool :=
  c = ' ' ∨ c = '\t' ∨ c = '\n' ∨ c = '\r'

/-- Lowercasing, modelling `toLowerCase()`. -/
def strToLower (s : String) : String := String.mk (s.data.map Char.toLower)

/-- Whitespace trimming on both ends, modelling `trim()`. -/
def strTrim (s : String) : String :=
  String.mk (((s.data.dropWhile isWsChar).reverse.dropWhile isWsChar).reverse)

/-- Whether the first list is a prefix of the second. -/
def charsStartsWith : List Char → List Char → Bool
  | [], _ => true
  | _, [] => false
  | p :: ps, c :: cs => p = c ∧ charsStartsWith ps cs

/-- Split at the first occurrence of a (non-empty) separator. -/
def charsSplitFirst (sep : List Char) : List Char → Option (List Char × List Char)
  | [] => none
  | c :: rest =>
      if charsStartsWith sep (c :: rest) then some ([], (c :: rest).drop sep.length)
      else (charsSplitFirst sep rest).map (fun pr => (c :: pr.1, pr.2))

/-- Fuelled splitting on every occurrence of a separator. -/
def charsSplitOn : Nat → List Char → List Char → List (List Char)
  | 0, _, cs => [cs]
  | fuel + 1, sep, cs =>
      match charsSplitFirst sep cs with
      | some (a, b) => a :: charsSplitOn fuel sep b
      | none => [cs]

/-- Splitting on a non-empty separator, modelling `split(sep)`. -/
def strSplitOn (s sep : String) : List String :=
  (charsSplitOn (s.data.length + 1) sep.data s.data).map String.mk

/-- Joining with a separator, modelling `join(sep)`. -/
def strJoinSep (sep : String) : List String → String
  | [] => ""
  | s :: ss => ss.foldl (fun acc t => acc ++ sep ++ t) s

/-- The ids of all bookmark nodes in a forest, in traversal order
(mirrors the traversal order of `extractBookmarks` in part_007). -/
def bookmarkIds : List BookmarkNode → List String
  | [] => []
  | .bookmark b :: rest => b.id :: bookmarkIds rest
  | .folder _ _ ch _ :: rest => bookmarkIds ch ++ bookmarkIds rest

/-- Number of occurrences of a string in a list (used to count bookmark ids). -/
def countOcc (x : String) : List String → Nat
  | [] => 0
  | y :: ys => (if y = x then 1 else 0) + countOcc x ys

/-- Model of `OrganizationSuggestion` from src/types.ts / part_007. -/
structure OrganizationSuggestion where
  bookmarkId : String
  suggestedCategory : String
  confidence : ℚ
  reasoning : String
  suggestedTags : List String
deriving DecidableEq, Repr

/-- Model of `OrganizationConflict`. -/
structure OrganizationConflict where
  bookmarkId : String
  currentCategory : String
  suggestedCategory : String
  confidence : ℚ
deriving DecidableEq, Repr

/-- Model of `mergeStrategy` tag of a `DuplicateGroup`. -/
inductive MergeStrategy where
  | keep_primary | keep_newest | manual
deriving DecidableEq, Repr

/-- Model of `DuplicateGroup`. -/
structure DuplicateGroup where
  primaryBookmark : Bookmark
  duplicates : List Bookmark
  mergeStrategy : MergeStrategy
deriving DecidableEq, Repr

/-- Model of `OrganizationPlan` (the run metadata — counts and a timestamp — is not
modelled; no claim refers to it). -/
structure OrganizationPlan where
  suggestions : List OrganizationSuggestion
  conflicts : List OrganizationConflict
  duplicates : List DuplicateGroup
  newFolders : List String
deriving DecidableEq, Repr

/-- Model of `handleDuplicates` option of `applyOrganizationPlan`. -/
inductive HandleDuplicates where
  | merge | keep_all
deriving DecidableEq, Repr

/-- The set (as a list) of ids removed by duplicate merging:
`duplicates.flatMap(group => group.duplicates.map(d => d.id))`
(part_007 lines 446-448). -/
def duplicateIdSet (groups : List DuplicateGroup) : List String :=
  groups.flatMap (fun g => g.duplicates.map (fun d => d.id))

/-- Model of `removeDuplicates` inside `applyDuplicateMerging` (part_007 lines
450-459): drop every bookmark node whose id is in the duplicate id set,
recursively; folders are kept and their children filtered. -/
def applyDuplicateMerging : List BookmarkNode → List String → List BookmarkNode
  | [], _ => []
  | .bookmark b :: rest, ids =>
      if b.id ∈ ids then applyDuplicateMerging rest ids
      else .bookmark b :: applyDuplicateMerging rest ids
  | .folder fid nm ch ad :: rest, ids =>
      .folder fid nm (applyDuplicateMerging ch ids) ad :: applyDuplicateMerging rest ids

/-- Model of `removeBookmarkById` (part_007 lines 532-541). -/
def removeBookmarkById : List BookmarkNode → String → List BookmarkNode
  | [], _ => []
  | .bookmark b :: rest, x =>
      if b.id = x then removeBookmarkById rest x
      else .bookmark b :: removeBookmarkById rest x
  | .folder fid nm ch ad :: rest, x =>
      .folder fid nm (removeBookmarkById ch x) ad :: removeBookmarkById rest x

/-- Model of `addBookmarkToPath` (part_007 lines 543-579): empty path appends the
bookmark at this level; otherwise the first folder whose name equals the
path head is descended into, and if there is none a new folder is appended
as the last child. -/
def addBookmarkToPath : List BookmarkNode → Bookmark → List String → List BookmarkNode
  | nodes, b, [] => nodes ++ [.bookmark b]
  | [], b, f :: rest =>
      [.folder freshFolderId f (addBookmarkToPath [] b rest) (some freshAddDate)]
  | .bookmark b0 :: ns, b, f :: rest =>
      .bookmark b0 :: addBookmarkToPath ns b (f :: rest)
  | .folder fid nm ch ad :: ns, b, f :: rest =>
      if nm = f then .folder fid nm (addBookmarkToPath ch b rest) ad :: ns
      else .folder fid nm ch ad :: addBookmarkToPath ns b (f :: rest)

/-- Model of `ensureFolderPath` (part_007 lines 581-610). -/
def ensureFolderPath : List BookmarkNode → List String → List BookmarkNode
  | nodes, [] => nodes
  | [], f :: rest =>
      [.folder freshFolderId f (ensureFolderPath [] rest) (some freshAddDate)]
  | .bookmark b0 :: ns, f :: rest =>
      .bookmark b0 :: ensureFolderPath ns (f :: rest)
  | .folder fid nm ch ad :: ns, f :: rest =>
      if nm = f then .folder fid nm (ensureFolderPath ch rest) ad :: ns
      else .folder fid nm ch ad :: ensureFolderPath ns (f :: rest)

/-- The suggestion map `new Map(suggestions.map(s => [s.bookmarkId, s]))`
(part_007 lines 472-474); as in a JS Map built from entries, a later entry
with the same key overwrites an earlier one. -/
def lookupSuggestion (ss : List OrganizationSuggestion) (x : String) :
    Option OrganizationSuggestion :=
  ss.foldl (fun acc s => if s.bookmarkId = x then some s else acc) none

/-- Model of `collectMoves` inside `applySuggestions` (part_007 lines 480-494):
traverse the tree and collect `(bookmark, targetPath)` for every bookmark
that has a suggestion whose target path differs from its current path
(both compared after joining with " > ", exactly as the source). -/
def collectMoves (lk : String → Option OrganizationSuggestion) :
    List BookmarkNode → List String → List (Bookmark × List String)
  | [], _ => []
  | .bookmark b :: rest, curPath =>
      (match lk b.id with
       | some s =>
           let target := strSplitOn s.suggestedCategory pathSep
           if strJoinSep pathSep target ≠ strJoinSep pathSep curPath
           then [(b, target)] else []
       | none => []) ++ collectMoves lk rest curPath
  | .folder _ nm ch _ :: rest, curPath =>
      collectMoves lk ch (curPath ++ [nm]) ++ collectMoves lk rest curPath

/-- Model of `applySuggestions` (part_007 lines 467-510): collect moves, remove each
moved bookmark from its current location, then re-insert each at its target
path.  (The `resolveConflicts` parameter of the source is unused there —
"For now, implement auto-resolution".) -/
def applySuggestions (nodes : List BookmarkNode)
    (suggestions : List OrganizationSuggestion) : List BookmarkNode :=
  let lk := lookupSuggestion suggestions
  let moves := collectMoves lk nodes []
  let removed := moves.foldl (fun acc m => removeBookmarkById acc m.1.id) nodes
  moves.foldl (fun acc m => addBookmarkToPath acc m.1 m.2) removed

/-- Model of `createFolderStructure` (part_007 lines 515-527). -/
def createFolderStructure (nodes : List BookmarkNode) (newFolders : List String) :
    List BookmarkNode :=
  newFolders.foldl (fun acc p => ensureFolderPath acc (strSplitOn p pathSep)) nodes

/-- Model of `applyOrganizationPlan` (part_007 lines 411-436).  The deep copy of the
input is the identity in a purely functional model; `resolveConflicts` is
not consulted by the source. -/
def applyOrganizationPlan (nodes : List BookmarkNode) (plan : OrganizationPlan)
    (handleDuplicates : HandleDuplicates) : List BookmarkNode :=
  let t1 := match handleDuplicates with
    | .merge => applyDuplicateMerging nodes (duplicateIdSet plan.duplicates)
    | .keep_all => nodes
  let t2 := applySuggestions t1 plan.suggestions
  createFolderStructure t2 plan.newFolders

/-! ### Duplicate detector (part_007, `detectDuplicates`, lines 262-354) -/

/-- URL normalization of the exact-URL pass: `bookmark.url.toLowerCase().trim()`. -/
def normalizeUrl (u : String) : String := strTrim (strToLower u)

/-- The keys of the `urlMap` in first-insertion order (the iteration order of
a JS Map).  Bookmarks with an empty url are skipped (`if (!bookmark.url) continue`). -/
def urlKeys : List Bookmark → List String
  | [] => []
  | b :: rest =>
      if b.url = "" then urlKeys rest
      else normalizeUrl b.url :: (urlKeys rest).filter (fun k => k ≠ normalizeUrl b.url)

/-- The bookmarks grouped under one url key, in input order. -/
def urlGroupOf (bs : List Bookmark) (k : String) : List Bookmark :=
  bs.filter (fun b => b.url ≠ "" ∧ normalizeUrl b.url = k)

/-- The score used by `selectPrimaryBookmark` in part_007 lines 348-354:
`(title?.length || 0) + (tags?.length || 0)`. -/
def lenScore (b : Bookmark) : Nat := b.title.length + b.tags.length

/-- Model of `selectPrimaryBookmark` (part_007 lines 348-354): `reduce` keeping the
current accumulator unless the next bookmark has a strictly larger score. -/
def selectPrimaryBookmark (b0 : Bookmark) (rest : List Bookmark) : Bookmark :=
  rest.foldl (fun p c => if lenScore p < lenScore c then c else p) b0

/-- The exact-URL pass (part_007 lines 265-286): every url group with more
than one member yields a `DuplicateGroup` whose primary is chosen by
`selectPrimaryBookmark` and whose duplicates are the rest of the group. -/
def exactUrlGroups (bs : List Bookmark) : List DuplicateGroup :=
  (urlKeys bs).filterMap fun k =>
    match urlGroupOf bs k with
    | b0 :: b1 :: rest =>
        let primary := selectPrimaryBookmark b0 (b1 :: rest)
        some { primaryBookmark := primary
             , duplicates := (b0 :: b1 :: rest).filter (fun b => b.id ≠ primary.id)
             , mergeStrategy := .keep_primary }
    | _ => none

/-- Models `new URL(url).hostname.toLowerCase()` for the http/https URLs this
repository handles: the authority part between the scheme separator and the
first of `/ ? # :`, lowercased.  Strings without an http(s) scheme or with an
empty host are treated as the `catch`-branch of the source (invalid URL,
skipped). -/
def urlHostname (u : String) : Option String :=
  let afterScheme :=
    if charsStartsWith ("http://".data) u.data then some (u.data.drop 7)
    else if charsStartsWith ("https://".data) u.data then some (u.data.drop 8)
    else none
  match afterScheme with
  | none => none
  | some rest =>
      let host := rest.takeWhile (fun c => ¬ (c = '/' ∨ c = '?' ∨ c = '#' ∨ c = ':'))
      if host = [] then none else some (String.mk (host.map Char.toLower))

/-- The keys of the `domainMap` in first-insertion order; bookmarks with an
empty or unparsable url are skipped. -/
def domainKeys : List Bookmark → List String
  | [] => []
  | b :: rest =>
      if b.url = "" then domainKeys rest
      else match urlHostname b.url with
        | none => domainKeys rest
        | some d => d :: (domainKeys rest).filter (fun k => k ≠ d)

/-- The bookmarks grouped under one domain, in input order. -/
def domainGroupOf (bs : List Bookmark) (d : String) : List Bookmark :=
  bs.filter (fun b => b.url ≠ "" ∧ urlHostname b.url = some d)

/-- The comparator of the domain pass (part_007 lines 308-327): ascending
URL length, then descending title length, then descending tag count. -/
def domainCmp (a b : Bookmark) : Int :=
  if a.url.length ≠ b.url.length then (a.url.length : Int) - b.url.length
  else if a.title.length ≠ b.title.length then (b.title.length : Int) - a.title.length
  else (b.tags.length : Int) - a.tags.length

/-- Stable insertion with respect to a JS comparator (`cmp y x < 0` keeps
`y` before `x`; on ties the earlier element stays first, matching the
stability guarantee of `Array.prototype.sort`). -/
def insertStable (cmp : Bookmark → Bookmark → Int) (x : Bookmark) :
    List Bookmark → List Bookmark
  | [] => [x]
  | y :: ys => if cmp y x < 0 then y :: insertStable cmp x ys else x :: y :: ys

/-- Stable sort by a JS comparator. -/
def sortStable (cmp : Bookmark → Bookmark → Int) : List Bookmark → List Bookmark
  | [] => []
  | x :: xs => insertStable cmp x (sortStable cmp xs)

/-- The domain pass (part_007 lines 289-343): every domain group with more
than one member is sorted by `domainCmp`; the first element is the primary,
the remainder are the duplicates. -/
def domainGroups (bs : List Bookmark) : List DuplicateGroup :=
  (domainKeys bs).filterMap fun d =>
    match sortStable domainCmp (domainGroupOf bs d) with
    | b0 :: b1 :: rest =>
        some { primaryBookmark := b0
             , duplicates := b1 :: rest
             , mergeStrategy := .keep_primary }
    | _ => none

/-- Model of `detectDuplicates` (part_007 lines 262-346): the concatenation of the
exact-URL pass and the domain pass. -/
def detectDuplicates (bs : List Bookmark) : List DuplicateGroup :=
  exactUrlGroups bs ++ domainGroups bs

/-! ### Conflict identifier (part_007, `identifyConflicts`, lines 356-385) -/

/-- Model of `buildLocationMap` (part_007 lines 362-370): association list from
bookmark id to its location string `path.join(' > ') || 'Root'`, built in
traversal order. -/
def buildLocationMap : List BookmarkNode → List String → List (String × String)
  | [], _ => []
  | .bookmark b :: rest, path =>
      let j := strJoinSep pathSep path
      (b.id, if j = "" then ("Root") else j) :: buildLocationMap rest path
  | .folder _ nm ch _ :: rest, path =>
      buildLocationMap ch (path ++ [nm]) ++ buildLocationMap rest path

/-- Lookup in the location map with JS-Map semantics (later `set` wins). -/
def lookupLoc (m : List (String × String)) (x : String) : Option String :=
  m.foldl (fun acc e => if e.1 = x then some e.2 else acc) none

/-- The current location used for a suggestion:
`currentLocations.get(suggestion.bookmarkId) || 'Root'`. -/
def currentLocation (tree : List BookmarkNode) (x : String) : String :=
  (lookupLoc (buildLocationMap tree []) x).getD ("Root")

/-- Model of `identifyConflicts` (part_007 lines 356-385): one conflict per
suggestion whose current location differs from its suggested category.
No confidence gate is applied. -/
def identifyConflicts (suggestions : List OrganizationSuggestion)
    (tree : List BookmarkNode) : List OrganizationConflict :=
  suggestions.filterMap fun s =>
    let cur := currentLocation tree s.bookmarkId
    if cur ≠ s.suggestedCategory then
      some { bookmarkId := s.bookmarkId
           , currentCategory := cur
           , suggestedCategory := s.suggestedCategory
           , confidence := s.confidence }
    else none

/-! ### Folder-structure synthesizer (part_007, `generateFolderStructure`,
lines 387-405) -/

/-- JSON values. -/
inductive Json where
  | null
  | bool (b : Bool)
  | num (q : ℚ)
  | str (s : String)
  | arr (elems : List Json)
  | obj (fields : List (String × Json))

/-- The opening-brace character, written via its code point. -/
def lbraceChar : Char := Char.ofNat 123

/-- The closing-brace character, written via its code point. -/
def rbraceChar : Char := Char.ofNat 125

/-- The double-quote character. -/
def quoteChar : Char := '"'

/-- The single-quote character, written via its code point. -/
def aposChar : Char := Char.ofNat 39

/-- The backslash character. -/
def backslashChar : Char := '\\'

/-- Skip JSON whitespace. -/
def skipWs (cs : List Char) : List Char := cs.dropWhile isWsChar

/-- Decimal digit test. -/
def isDigitChar (c : Char) : Bool := '0' ≤ c ∧ c ≤ '9'

/-- Hexadecimal digit value. -/
def hexVal (c : Char) : Option Nat :=
  if '0' ≤ c ∧ c ≤ '9' then some (c.toNat - 48)
  else if 'a' ≤ c ∧ c ≤ 'f' then some (c.toNat - 87)
  else if 'A' ≤ c ∧ c ≤ 'F' then some (c.toNat - 70)
  else none

/-- Natural number denoted by a list of decimal digits. -/
def natOfDigits (ds : List Char) : Nat :=
  ds.foldl (fun acc c => acc * 10 + (c.toNat - 48)) 0

/-- Parse the body of a JSON string (the opening quote already consumed). -/
def parseJsonStringAux : Nat → List Char → List Char → Option (String × List Char)
  | 0, _, _ => none
  | _, _, [] => none
  | fuel + 1, acc, c :: cs =>
      if c = quoteChar then some (String.mk acc.reverse, cs)
      else if c = backslashChar then
        match cs with
        | [] => none
        | e :: cs2 =>
            if e = quoteChar then parseJsonStringAux fuel (quoteChar :: acc) cs2
            else if e = backslashChar then parseJsonStringAux fuel (backslashChar :: acc) cs2
            else if e = '/' then parseJsonStringAux fuel ('/' :: acc) cs2
            else if e = 'b' then parseJsonStringAux fuel (Char.ofNat 8 :: acc) cs2
            else if e = 'f' then parseJsonStringAux fuel (Char.ofNat 12 :: acc) cs2
            else if e = 'n' then parseJsonStringAux fuel ('\n' :: acc) cs2
            else if e = 'r' then parseJsonStringAux fuel ('\r' :: acc) cs2
            else if e = 't' then parseJsonStringAux fuel ('\t' :: acc) cs2
            else if e = 'u' then
              match cs2 with
              | h1 :: h2 :: h3 :: h4 :: cs3 =>
                  match hexVal h1, hexVal h2, hexVal h3, hexVal h4 with
                  | some v1, some v2, some v3, some v4 =>
                      parseJsonStringAux fuel
                        (Char.ofNat (((v1 * 16 + v2) * 16 + v3) * 16 + v4) :: acc) cs3
                  | _, _, _, _ => none
              | _ => none
            else none
      else parseJsonStringAux fuel (c :: acc) cs

/-- Parse a JSON number, returning its rational value and the rest. -/
def parseJsonNumber (cs : List Char) : Option (ℚ × List Char) :=
  let (negSign, cs1) := match cs with
    | '-' :: rest => (true, rest)
    | _ => (false, cs)
  let intDs := cs1.takeWhile isDigitChar
  let cs2 := cs1.drop intDs.length
  if intDs = [] then none else
  let (fracDs, cs3) := match cs2 with
    | '.' :: rest =>
        let ds := rest.takeWhile isDigitChar
        (ds, rest.drop ds.length)
    | _ => ([], cs2)
  if cs2 ≠ cs3 ∧ fracDs = [] then none else
  let mant : Nat := natOfDigits intDs * 10 ^ fracDs.length + natOfDigits fracDs
  let expParse : Option (Int × List Char) := match cs3 with
    | e :: rest =>
        if e = 'e' ∨ e = 'E' then
          let (eNeg, rest2) := match rest with
            | '-' :: r => (true, r)
            | '+' :: r => (false, r)
            | _ => (false, rest)
          let eDs := rest2.takeWhile isDigitChar
          if eDs = [] then none
          else some ((if eNeg then -(natOfDigits eDs : Int) else (natOfDigits eDs : Int)),
                     rest2.drop eDs.length)
        else some (0, cs3)
    | [] => some (0, cs3)
  match expParse with
  | none => none
  | some (e, cs4) =>
      let mantInt : Int := if negSign then -(mant : Int) else (mant : Int)
      let q : ℚ :=
        if 0 ≤ e then mkRat (mantInt * (10 : Int) ^ e.toNat) (10 ^ fracDs.length)
        else mkRat mantInt (10 ^ fracDs.length * 10 ^ (-e).toNat)
      some (q, cs4)

mutual

/-- Parse one JSON value (leading whitespace allowed). -/
def parseJsonVal : Nat → List Char → Option (Json × List Char)
  | 0, _ => none
  | fuel + 1, cs =>
      match skipWs cs with
      | [] => none
      | c :: rest =>
          if c = lbraceChar then
            match skipWs rest with
            | d :: rest2 =>
                if d = rbraceChar then some (.obj [], rest2)
                else parseJsonMembers fuel [] (d :: rest2)
            | [] => none
          else if c = '[' then
            match skipWs rest with
            | ']' :: rest2 => some (.arr [], rest2)
            | other => parseJsonElems fuel [] other
          else if c = quoteChar then
            match parseJsonStringAux (rest.length + 1) [] rest with
            | some (s, rest2) => some (.str s, rest2)
            | none => none
          else if c = 't' then
            match rest with
            | 'r' :: 'u' :: 'e' :: rest2 => some (.bool true, rest2)
            | _ => none
          else if c = 'f' then
            match rest with
            | 'a' :: 'l' :: 's' :: 'e' :: rest2 => some (.bool false, rest2)
            | _ => none
          else if c = 'n' then
            match rest with
            | 'u' :: 'l' :: 'l' :: rest2 => some (.null, rest2)
            | _ => none
          else if c = '-' ∨ isDigitChar c then
            match parseJsonNumber (c :: rest) with
            | some (q, rest2) => some (.num q, rest2)
            | none => none
          else none

/-- Parse the members of a JSON object (input positioned at the first key). -/
def parseJsonMembers : Nat → List (String × Json) → List Char →
    Option (Json × List Char)
  | 0, _, _ => none
  | fuel + 1, acc, cs =>
      match skipWs cs with
      | c :: rest =>
          if c = quoteChar then
            match parseJsonStringAux (rest.length + 1) [] rest with
            | some (key, rest2) =>
                match skipWs rest2 with
                | ':' :: rest3 =>
                    match parseJsonVal fuel rest3 with
                    | some (v, rest4) =>
                        match skipWs rest4 with
                        | ',' :: rest5 => parseJsonMembers fuel ((key, v) :: acc) rest5
                        | d :: rest5 =>
                            if d = rbraceChar then
                              some (.obj (((key, v) :: acc).reverse), rest5)
                            else none
                        | [] => none
                    | none => none
                | _ => none
            | none => none
          else none
      | [] => none

/-- Parse the elements of a JSON array (input positioned at the first element). -/
def parseJsonElems : Nat → List Json → List Char → Option (Json × List Char)
  | 0, _, _ => none
  | fuel + 1, acc, cs =>
      match parseJsonVal fuel cs with
      | some (v, rest) =>
          match skipWs rest with
          | ',' :: rest2 => parseJsonElems fuel (v :: acc) rest2
          | ']' :: rest2 => some (.arr ((v :: acc).reverse), rest2)
          | _ => none
      | none => none

end

/-- Model of `JSON.parse`: parse a complete JSON document (trailing whitespace only). -/
def jsonParse (s : String) : Option Json :=
  match parseJsonVal (s.length + 1) s.data with
  | some (v, rest) => if skipWs rest = [] then some v else none
  | none => none

/-- Last-wins field lookup in a JSON object literal (duplicate keys in a
JSON text give the last value, as in `JSON.parse`). -/
def jsonGet (fields : List (String × Json)) (key : String) : Option Json :=
  fields.foldl (fun acc f => if f.1 = key then some f.2 else acc) none

/-- Model of `parsed.field || default` for string-valued fields: a present non-empty
string wins, otherwise (absent field, empty string, or non-object value) the
default is used.  Non-string truthy JSON values in these fields are outside
this model; no claim exercises them. -/
def strFieldOr (j : Json) (key : String) (dflt : String) : String :=
  match j with
  | .obj fs =>
      match jsonGet fs key with
      | some (.str s) => if s = "" then dflt else s
      | _ => dflt
  | _ => dflt

/-- Model of `parsed.field || 0` for number-valued fields (`0 || 0` is `0`, so a
present numeric field always yields its value here). -/
def numFieldOr (j : Json) (key : String) (dflt : ℚ) : ℚ :=
  match j with
  | .obj fs =>
      match jsonGet fs key with
      | some (.num q) => q
      | _ => dflt
  | _ => dflt

/-- Model of `Array.isArray(parsed.tags) ? parsed.tags : []`, keeping the string
elements (non-string array elements are outside this model; no claim
depends on tag contents). -/
def tagsField (j : Json) : List String :=
  match j with
  | .obj fs =>
      match jsonGet fs ("tags") with
      | some (.arr xs) => xs.filterMap (fun x => match x with | .str s => some s | _ => none)
      | _ => []
  | _ => []

/-- The smaller of two rationals, modelling `Math.min`. -/
def ratMin (a b : ℚ) : ℚ := if a ≤ b then a else b

/-- The larger of two rationals, modelling `Math.max`. -/
def ratMax (a b : ℚ) : ℚ := if a ≤ b then b else a

/-- Model of `Math.max(0, Math.min(1, q))`. -/
def clamp01 (q : ℚ) : ℚ := ratMax 0 (ratMin 1 q)

/-! ### The regex fallback tier of `parseAISuggestion`
(src/services/ai/bookmarkOrganizer.ts lines 441-464) -/

/-- Case-insensitive literal match; returns the remaining input. -/
def matchCI : List Char → List Char → Option (List Char)
  | [], cs => some cs
  | _, [] => none
  | l :: ls, c :: cs => if l.toLower = c.toLower then matchCI ls cs else none

/-- Model of `parseFloat` on a token drawn from `[0-9.]+`: the longest
prefix of the form `digits`, `digits.digits*` or `.digits+` is converted;
a token with no leading digits and no fractional digits has no numeric
value (JS would yield `NaN`; no claim exercises that case). -/
def parseFloatTok (s : String) : Option ℚ :=
  let cs := s.data
  let intDs := cs.takeWhile isDigitChar
  let rest := cs.drop intDs.length
  match rest with
  | '.' :: rest2 =>
      let fracDs := rest2.takeWhile isDigitChar
      if intDs = [] ∧ fracDs = [] then none
      else some (mkRat (natOfDigits intDs * 10 ^ fracDs.length + natOfDigits fracDs)
        (10 ^ fracDs.length))
  | _ => if intDs = [] then none else some (natOfDigits intDs : ℚ)

/-- Attempt the regex `["']?confidence["']?\s*:\s*([0-9.]+)` (case
insensitive) at the start of the input; returns the captured token. -/
def matchConfidenceAt (cs : List Char) : Option String :=
  let cs1 := match cs with
    | c :: rest => if c = quoteChar ∨ c = aposChar then rest else cs
    | [] => cs
  match matchCI ("confidence".data) cs1 with
  | none => none
  | some cs2 =>
      let cs3 := match cs2 with
        | c :: rest => if c = quoteChar ∨ c = aposChar then rest else cs2
        | [] => cs2
      match skipWs cs3 with
      | ':' :: cs4 =>
          let cs5 := skipWs cs4
          let tok := cs5.takeWhile (fun c => isDigitChar c ∨ c = '.')
          if tok = [] then none else some (String.mk tok)
      | _ => none

/-- Attempt the regex `["']?category["']?\s*:\s*["']([^"']+)["']` (case
insensitive) at the start of the input; returns the captured token. -/
def matchCategoryAt (cs : List Char) : Option String :=
  let cs1 := match cs with
    | c :: rest => if c = quoteChar ∨ c = aposChar then rest else cs
    | [] => cs
  match matchCI ("category".data) cs1 with
  | none => none
  | some cs2 =>
      let cs3 := match cs2 with
        | c :: rest => if c = quoteChar ∨ c = aposChar then rest else cs2
        | [] => cs2
      match skipWs cs3 with
      | ':' :: cs4 =>
          match skipWs cs4 with
          | q :: cs5 =>
              if q = quoteChar ∨ q = aposChar then
                let tok := cs5.takeWhile (fun c => ¬ (c = quoteChar ∨ c = aposChar))
                match cs5.drop tok.length with
                | q2 :: _ =>
                    if (q2 = quoteChar ∨ q2 = aposChar) ∧ tok ≠ [] then
                      some (String.mk tok)
                    else none
                | [] => none
              else none
          | [] => none
      | _ => none

/-- Leftmost regex search: try the matcher at every position, left to right. -/
def scanFirst (f : List Char → Option String) : List Char → Option String
  | [] => none
  | c :: cs =>
      match f (c :: cs) with
      | some r => some r
      | none => scanFirst f cs

/-- Model of `response.match(/["']?confidence["']?\s*:\s*([0-9.]+)/i)`. -/
def findConfidenceMatch (s : String) : Option String := scanFirst matchConfidenceAt s.data

/-- Model of `response.match(/["']?category["']?\s*:\s*["']([^"']+)["']/i)`. -/
def findCategoryMatch (s : String) : Option String := scanFirst matchCategoryAt s.data

/-- Model of `parseAISuggestion` (src/services/ai/bookmarkOrganizer.ts lines
441-464): strict JSON tier with clamped confidence; on a parse failure, the
regex fallback tier, whose confidence is `parseFloat` of the captured token
(or 0.5 when there is no match) — the source applies no clamp there. -/
def parseAISuggestion (response : String) (bookmarkId : String) :
    OrganizationSuggestion :=
  match jsonParse (strTrim response) with
  | some j =>
      { bookmarkId := bookmarkId
      , suggestedCategory := strFieldOr j ("category") ("Uncategorized")
      , confidence := clamp01 (numFieldOr j ("confidence") 0)
      , reasoning := strFieldOr j ("reasoning") ("AI-generated suggestion")
      , suggestedTags := tagsField j }
  | none =>
      { bookmarkId := bookmarkId
      , suggestedCategory := (findCategoryMatch response).getD ("Uncategorized")
      , confidence :=
          match findConfidenceMatch response with
          | some tok => (parseFloatTok tok).getD 0
          | none => mkRat 1 2
      , reasoning := "Parsed from AI response"
      , suggestedTags := [] }

/-! ### The batch response parser (part_007, `parseBatchAISuggestions`,
lines 202-232) -/

/-- Model of `AiConfigGroup` from src/types.ts. -/
structure AiConfigGroup where
  id : String
  name : String
  aiConfigIds : List String
deriving DecidableEq, Repr

/-- The round-robin assignment of part_007 line 169:
`group.aiConfigIds[index % group.aiConfigIds.length]` (the guard at lines
144-148 ensures the list is non-empty whenever a batch runs). -/
def roundRobinConfigId (g : AiConfigGroup) (i : Nat) : String :=
  g.aiConfigIds.getD (i % g.aiConfigIds.length) ""

/-- The outcome of one `fetch` attempt: an HTTP response with a status, an
`AbortError` (explicit cancellation or timeout), a transport error whose
message contains `NetworkError`, or any other thrown error. -/
inductive FetchOutcome where
  | response (status : Nat)
  | abortError
  | networkError
  | otherError
deriving DecidableEq, Repr

/-- The attempt loop of `fetchWithRetry`, fed the outcome of each attempt.
Returns the result (a response status, or the error that was rethrown) and
the number of attempts made.  A 4xx status other than 429 returns at once;
5xx and 429 retry while attempts remain; `AbortError` and `NetworkError`
failures retry while attempts remain; any other thrown error is rethrown
immediately. -/
def fetchRetryGo (outcome : Nat → FetchOutcome) :
    Nat → Nat → Except FetchOutcome Nat × Nat
  | attempt, remaining =>
      match outcome attempt with
      | .response st =>
          if 400 ≤ st ∧ st < 500 ∧ st ≠ 429 then (.ok st, 1)
          else if 500 ≤ st ∨ st = 429 then
            match remaining with
            | r + 1 =>
                let next := fetchRetryGo outcome (attempt + 1) r
                (next.1, next.2 + 1)
            | 0 => (.ok st, 1)
          else (.ok st, 1)
      | .abortError =>
          match remaining with
          | r + 1 =>
              let next := fetchRetryGo outcome (attempt + 1) r
              (next.1, next.2 + 1)
          | 0 => (.error .abortError, 1)
      | .networkError =>
          match remaining with
          | r + 1 =>
              let next := fetchRetryGo outcome (attempt + 1) r
              (next.1, next.2 + 1)
          | 0 => (.error .networkError, 1)
      | .otherError => (.error .otherError, 1)

/-- Model of `fetchWithRetry` with a given `retries` bound (default 3 in the
source): run the attempt loop from attempt 0. -/
def fetchWithRetry (outcome : Nat → FetchOutcome) (retries : Nat) :
    Except FetchOutcome Nat × Nat :=
  fetchRetryGo outcome 0 retries

/-- First bookmark of the duplicate-detection scenario of the spec. -/
def scnB1 : Bookmark := { id := "b1", title := "A", url := "http://x.com/a", tags := [] }

/-- Second bookmark of the duplicate-detection scenario of the spec. -/
def scnB2 : Bookmark :=
  { id := "b2", title := "A copy", url := "http://x.com/a", tags := [] }

/-- The group actually produced by the exact-URL pass on the scenario input. -/
def scnGroup : DuplicateGroup :=
  { primaryBookmark := scnB2, duplicates := [scnB1], mergeStrategy := .keep_primary }

/-- A bookmark that wins the exact-URL pass (short title, many tags). -/
def crossA : Bookmark :=
  { id := "d1", title := "abc", url := "http://x.com/a"
  , tags := ["t1", "t2", "t3", "t4", "t5"] }

/-- A bookmark that wins the domain pass (long title, no tags). -/
def crossB : Bookmark :=
  { id := "d2", title := "abcdef", url := "http://x.com/a", tags := [] }

/-- A plan holding exactly the detector output for the cross-pass pair. -/
def crossPlan : OrganizationPlan :=
  { suggestions := [], conflicts := []
  , duplicates := detectDuplicates [crossA, crossB], newFolders := [] }

/-- A raw model response that fails JSON.parse and whose regex tier captures
an out-of-range confidence. -/
def c3resp : String := "confidence: 1.5"

/-- Witness group for the round-robin assignment. -/
def rrGroup : AiConfigGroup := { id := "g4", name := "grp", aiConfigIds := ["c0", "c1"] }

/-- Witness suggestion with a deliberately low confidence. -/
def w5sugg : OrganizationSuggestion :=
  { bookmarkId := "w1", suggestedCategory := "Dev", confidence := mkRat 1 10
  , reasoning := "r", suggestedTags := [] }

/-- Witness tree holding the suggestion's bookmark at the root. -/
def w5tree : List BookmarkNode :=
  [.bookmark { id := "w1", title := "W", url := "http://w.io/", tags := [] }]

/-- Witness bookmark kept by the plan applier. -/
def w1b1 : Bookmark := { id := "a1", title := "A1", url := "u1", tags := [] }

/-- Witness bookmark removed as a duplicate by the plan applier. -/
def w1b2 : Bookmark := { id := "a2", title := "A2", url := "u2", tags := [] }

/-- Witness tree for the plan applier. -/
def w1tree : List BookmarkNode :=
  [.bookmark w1b1, .folder "f1" "F" [.bookmark w1b2] none]

/-- Witness plan: moves a1 into a new folder and removes a2 as a duplicate. -/
def w1plan : OrganizationPlan :=
  { suggestions := [{ bookmarkId := "a1", suggestedCategory := "New > Spot"
                    , confidence := 1, reasoning := "r", suggestedTags := [] }]
  , conflicts := []
  , duplicates := [{ primaryBookmark := w1b1, duplicates := [w1b2]
                   , mergeStrategy := .keep_primary }]
  , newFolders := ["New"] }

/-! ### Analysis helpers (not source functions)

The two definitions below express the folder-lookup discipline of
`addBookmarkToPath` / `ensureFolderPath` (first folder with a matching name
at each level) as a searchable predicate; they are used to state and prove
the idempotence of folder creation. -/

/-- The children of the first folder with the given name at this level
(the `findIndex` discipline of the source). -/
def findFolder? : List BookmarkNode → String → Option (List BookmarkNode)
  | [], _ => none
  | .bookmark _ :: rest, f => findFolder? rest f
  | .folder _ nm ch _ :: rest, f =>
      if nm = f then some ch else findFolder? rest f

/-- Whether a folder path already exists, following the first-match
discipline at every level. -/
def containsPathB : List BookmarkNode → List String → Bool
  | _, [] => true
  | ns, f :: rest =>
      match findFolder? ns f with
      | some ch => containsPathB ch rest
      | none => false

/-! ### General lemmas about the tree transformations -/

/-- Induction principle for forests of bookmark nodes: the folder case gets
hypotheses for both the children and the remaining siblings. -/
theorem nodeListInduction (P : List BookmarkNode → Prop)
    (h0 : P [])
    (hb : ∀ b rest, P rest → P (BookmarkNode.bookmark b :: rest))
    (hf : ∀ fid nm ch ad rest, P ch → P rest →
      P (BookmarkNode.folder fid nm ch ad :: rest)) :
    ∀ ns, P ns
  | [] => h0
  | .bookmark b :: rest => hb b rest (nodeListInduction P h0 hb hf rest)
  | .folder fid nm ch ad :: rest =>
      hf fid nm ch ad rest (nodeListInduction P h0 hb hf ch)
        (nodeListInduction P h0 hb hf rest)

theorem countOcc_append (x : String) (l1 l2 : List String) :
    countOcc x (l1 ++ l2) = countOcc x l1 + countOcc x l2 := by
  induction l1 with
  | nil => simp [countOcc]
  | cons y ys ih => simp [countOcc, ih, Nat.add_assoc]

theorem countOcc_eq_zero_of_not_mem {x : String} {l : List String} (h : x ∉ l) :
    countOcc x l = 0 := by
  induction l with
  | nil => rfl
  | cons y ys ih =>
      simp only [List.mem_cons, not_or] at h
      simp [countOcc, ih h.2, Ne.symm h.1]

theorem countOcc_pos_of_mem {x : String} {l : List String} (h : x ∈ l) :
    1 ≤ countOcc x l := by
  induction l with
  | nil => cases h
  | cons y ys ih =>
      rcases List.mem_cons.mp h with h1 | h1
      · simp [countOcc, h1]
      · have := ih h1
        simp only [countOcc]
        omega

theorem countOcc_le_one_of_nodup {x : String} {l : List String} (h : l.Nodup) :
    countOcc x l ≤ 1 := by
  induction l with
  | nil => simp [countOcc]
  | cons y ys ih =>
      have hns := List.nodup_cons.mp h
      by_cases hxy : y = x
      · subst hxy
        have := countOcc_eq_zero_of_not_mem hns.1
        simp [countOcc, this]
      · have := ih hns.2
        simp only [countOcc, if_neg hxy]
        omega

theorem countOcc_eq_one_of_nodup_mem {x : String} {l : List String}
    (h : l.Nodup) (hm : x ∈ l) : countOcc x l = 1 :=
  Nat.le_antisymm (countOcc_le_one_of_nodup h) (countOcc_pos_of_mem hm)

theorem bookmarkIds_append (l1 l2 : List BookmarkNode) :
    bookmarkIds (l1 ++ l2) = bookmarkIds l1 ++ bookmarkIds l2 := by
  induction l1 using nodeListInduction with
  | h0 => simp [bookmarkIds]
  | hb b rest ih => simp [bookmarkIds, ih]
  | hf fid nm ch ad rest ihc ihr => simp [bookmarkIds, ihr, List.append_assoc]

theorem countOcc_removeBookmarkById (x y : String) (ns : List BookmarkNode) :
    countOcc x (bookmarkIds (removeBookmarkById ns y)) =
      if x = y then 0 else countOcc x (bookmarkIds ns) := by
  induction ns using nodeListInduction with
  | h0 => simp [removeBookmarkById, bookmarkIds, countOcc]
  | hb b rest ih =>
      by_cases hby : b.id = y
      · rw [show removeBookmarkById (BookmarkNode.bookmark b :: rest) y =
            removeBookmarkById rest y by simp [removeBookmarkById, hby]]
        rw [ih]
        by_cases hxy : x = y
        · simp [hxy]
        · have : ¬ b.id = x := by rw [hby]; exact fun h => hxy h.symm
          simp [bookmarkIds, countOcc, hxy, this]
      · rw [show removeBookmarkById (BookmarkNode.bookmark b :: rest) y =
            BookmarkNode.bookmark b :: removeBookmarkById rest y by
              simp [removeBookmarkById, hby]]
        simp only [bookmarkIds, countOcc, ih]
        by_cases hxy : x = y
        · simp [hxy, hby]
        · simp [hxy]
  | hf fid nm ch ad rest ihc ihr =>
      rw [show removeBookmarkById (BookmarkNode.folder fid nm ch ad :: rest) y =
          BookmarkNode.folder fid nm (removeBookmarkById ch y) ad ::
            removeBookmarkById rest y by simp [removeBookmarkById]]
      simp only [bookmarkIds, countOcc_append, ihc, ihr]
      by_cases hxy : x = y <;> simp [hxy]

theorem countOcc_applyDuplicateMerging (x : String) (D : List String)
    (ns : List BookmarkNode) :
    countOcc x (bookmarkIds (applyDuplicateMerging ns D)) =
      if x ∈ D then 0 else countOcc x (bookmarkIds ns) := by
  induction ns using nodeListInduction with
  | h0 => simp [applyDuplicateMerging, bookmarkIds, countOcc]
  | hb b rest ih =>
      by_cases hbD : b.id ∈ D
      · rw [show applyDuplicateMerging (BookmarkNode.bookmark b :: rest) D =
            applyDuplicateMerging rest D by simp [applyDuplicateMerging, hbD]]
        rw [ih]
        by_cases hxD : x ∈ D
        · simp [hxD]
        · have : ¬ b.id = x := fun h => hxD (h ▸ hbD)
          simp [bookmarkIds, countOcc, hxD, this]
      · rw [show applyDuplicateMerging (BookmarkNode.bookmark b :: rest) D =
            BookmarkNode.bookmark b :: applyDuplicateMerging rest D by
              simp [applyDuplicateMerging, hbD]]
        simp only [bookmarkIds, countOcc, ih]
        by_cases hxD : x ∈ D
        · have : ¬ b.id = x := fun h => hbD (h ▸ hxD)
          simp [hxD, this]
        · simp [hxD]
  | hf fid nm ch ad rest ihc ihr =>
      rw [show applyDuplicateMerging (BookmarkNode.folder fid nm ch ad :: rest) D =
          BookmarkNode.folder fid nm (applyDuplicateMerging ch D) ad ::
            applyDuplicateMerging rest D by simp [applyDuplicateMerging]]
      simp only [bookmarkIds, countOcc_append, ihc, ihr]
      by_cases hxD : x ∈ D <;> simp [hxD]

theorem bookmarkIds_ensureFolderPath (ns : List BookmarkNode) (p : List String) :
    bookmarkIds (ensureFolderPath ns p) = bookmarkIds ns := by
  induction p generalizing ns with
  | nil => simp [ensureFolderPath]
  | cons f rest ihp =>
      induction ns using nodeListInduction with
      | h0 => simp [ensureFolderPath, bookmarkIds, ihp]
      | hb b0 tail ihtail =>
          simp only [ensureFolderPath, bookmarkIds]
          rw [ihtail]
      | hf fid nm ch ad tail ihch ihtail =>
          by_cases hnm : nm = f
          · simp only [ensureFolderPath, hnm, eq_self_iff_true, if_true, bookmarkIds]
            rw [ihp]
          · simp only [ensureFolderPath, if_neg hnm, bookmarkIds]
            rw [ihtail]

theorem countOcc_addBookmarkToPath (x : String) (b : Bookmark)
    (p : List String) (ns : List BookmarkNode) :
    countOcc x (bookmarkIds (addBookmarkToPath ns b p)) =
      countOcc x (bookmarkIds ns) + (if b.id = x then 1 else 0) := by
  induction p generalizing ns with
  | nil =>
      simp [addBookmarkToPath, bookmarkIds_append, countOcc_append, bookmarkIds, countOcc]
  | cons f rest ihp =>
      induction ns using nodeListInduction with
      | h0 =>
          simp only [addBookmarkToPath, bookmarkIds, List.append_nil]
          rw [ihp]
          simp [bookmarkIds, countOcc]
      | hb b0 tail ihtail =>
          simp only [addBookmarkToPath, bookmarkIds, countOcc]
          rw [ihtail]
          omega
      | hf fid nm ch ad tail ihch ihtail =>
          by_cases hnm : nm = f
          · simp only [addBookmarkToPath, hnm, eq_self_iff_true, if_true, bookmarkIds,
              countOcc_append]
            rw [ihp]
            omega
          · simp only [addBookmarkToPath, if_neg hnm, bookmarkIds, countOcc_append]
            rw [ihtail]
            omega

theorem bookmarkIds_createFolderStructure (nf : List String)
    (ns : List BookmarkNode) :
    bookmarkIds (createFolderStructure ns nf) = bookmarkIds ns := by
  induction nf generalizing ns with
  | nil => simp [createFolderStructure]
  | cons p rest ih =>
      show bookmarkIds (createFolderStructure (ensureFolderPath ns (strSplitOn p pathSep)) rest)
        = bookmarkIds ns
      rw [ih, bookmarkIds_ensureFolderPath]

theorem countOcc_removals_fold (x : String) (ms : List (Bookmark × List String)) :
    ∀ ns : List BookmarkNode,
    countOcc x (bookmarkIds
      (ms.foldl (fun acc m => removeBookmarkById acc m.1.id) ns)) =
      if x ∈ ms.map (fun m => m.1.id) then 0 else countOcc x (bookmarkIds ns) := by
  induction ms with
  | nil => intro ns; simp
  | cons m ms ih =>
      intro ns
      rw [List.foldl_cons, ih, countOcc_removeBookmarkById]
      by_cases h1 : x ∈ ms.map (fun m => m.1.id)
      · simp [h1]
      · by_cases h2 : x = m.1.id <;> simp [h1, h2]

theorem countOcc_additions_fold (x : String) (ms : List (Bookmark × List String)) :
    ∀ ns : List BookmarkNode,
    countOcc x (bookmarkIds
      (ms.foldl (fun acc m => addBookmarkToPath acc m.1 m.2) ns)) =
      countOcc x (bookmarkIds ns) + countOcc x (ms.map (fun m => m.1.id)) := by
  induction ms with
  | nil => intro ns; simp [countOcc]
  | cons m ms ih =>
      intro ns
      rw [List.foldl_cons, ih, countOcc_addBookmarkToPath]
      simp only [List.map_cons, countOcc]
      omega

theorem countOcc_collectMoves_le (x : String)
    (lk : String → Option OrganizationSuggestion) (ns : List BookmarkNode) :
    ∀ p, countOcc x ((collectMoves lk ns p).map (fun m => m.1.id)) ≤
      countOcc x (bookmarkIds ns) := by
  induction ns using nodeListInduction with
  | h0 => intro p; simp [collectMoves, bookmarkIds, countOcc]
  | hb b rest ih =>
      intro p
      have hhead : countOcc x
          (((match lk b.id with
             | some s =>
                 let target := strSplitOn s.suggestedCategory pathSep
                 if strJoinSep pathSep target ≠ strJoinSep pathSep p
                 then [(b, target)] else []
             | none => []) : List (Bookmark × List String)).map (fun m => m.1.id)) ≤
          (if b.id = x then 1 else 0) := by
        cases hlk : lk b.id with
        | none => simp [countOcc]
        | some s =>
            simp only []
            split
            · simp only [List.map_cons, List.map_nil, countOcc]
              split <;> simp
            · simp [countOcc]
      calc countOcc x ((collectMoves lk (BookmarkNode.bookmark b :: rest) p).map
              (fun m => m.1.id))
          = countOcc x
              (((match lk b.id with
                 | some s =>
                     let target := strSplitOn s.suggestedCategory pathSep
                     if strJoinSep pathSep target ≠ strJoinSep pathSep p
                     then [(b, target)] else []
                 | none => []) : List (Bookmark × List String)).map (fun m => m.1.id))
            + countOcc x ((collectMoves lk rest p).map (fun m => m.1.id)) := by
              rw [show collectMoves lk (BookmarkNode.bookmark b :: rest) p =
                (match lk b.id with
                 | some s =>
                     let target := strSplitOn s.suggestedCategory pathSep
                     if strJoinSep pathSep target ≠ strJoinSep pathSep p
                     then [(b, target)] else []
                 | none => []) ++ collectMoves lk rest p by
                   simp [collectMoves]]
              rw [List.map_append, countOcc_append]
        _ ≤ (if b.id = x then 1 else 0) + countOcc x (bookmarkIds rest) :=
              Nat.add_le_add hhead (ih p)
        _ = countOcc x (bookmarkIds (BookmarkNode.bookmark b :: rest)) := by
              simp [bookmarkIds, countOcc]
  | hf fid nm ch ad rest ihc ihr =>
      intro p
      rw [show collectMoves lk (BookmarkNode.folder fid nm ch ad :: rest) p =
          collectMoves lk ch (p ++ [nm]) ++ collectMoves lk rest p by
            simp [collectMoves]]
      rw [show bookmarkIds (BookmarkNode.folder fid nm ch ad :: rest) =
          bookmarkIds ch ++ bookmarkIds rest by simp [bookmarkIds]]
      rw [List.map_append, countOcc_append, countOcc_append]
      exact Nat.add_le_add (ihc (p ++ [nm])) (ihr p)

theorem countOcc_applySuggestions (x : String)
    (suggs : List OrganizationSuggestion) (ns : List BookmarkNode) :
    countOcc x (bookmarkIds (applySuggestions ns suggs)) =
      if x ∈ (collectMoves (lookupSuggestion suggs) ns []).map (fun m => m.1.id)
      then countOcc x ((collectMoves (lookupSuggestion suggs) ns []).map
        (fun m => m.1.id))
      else countOcc x (bookmarkIds ns) := by
  show countOcc x (bookmarkIds
    ((collectMoves (lookupSuggestion suggs) ns []).foldl
      (fun acc m => addBookmarkToPath acc m.1 m.2)
      ((collectMoves (lookupSuggestion suggs) ns []).foldl
        (fun acc m => removeBookmarkById acc m.1.id) ns))) = _
  rw [countOcc_additions_fold, countOcc_removals_fold]
  by_cases h : x ∈ (collectMoves (lookupSuggestion suggs) ns []).map (fun m => m.1.id)
  · simp [h]
  · simp [h, countOcc_eq_zero_of_not_mem h]

theorem countOcc_applyPlan_merge (x : String) (T : List BookmarkNode)
    (P : OrganizationPlan) :
    countOcc x (bookmarkIds (applyOrganizationPlan T P .merge)) =
      if x ∈ (collectMoves (lookupSuggestion P.suggestions)
          (applyDuplicateMerging T (duplicateIdSet P.duplicates)) []).map
          (fun m => m.1.id)
      then countOcc x ((collectMoves (lookupSuggestion P.suggestions)
          (applyDuplicateMerging T (duplicateIdSet P.duplicates)) []).map
          (fun m => m.1.id))
      else countOcc x (bookmarkIds
          (applyDuplicateMerging T (duplicateIdSet P.duplicates))) := by
  show countOcc x (bookmarkIds (createFolderStructure
    (applySuggestions (applyDuplicateMerging T (duplicateIdSet P.duplicates))
      P.suggestions) P.newFolders)) = _
  rw [bookmarkIds_createFolderStructure, countOcc_applySuggestions]

/-- C1: for every bookmark tree T (ids unique across the tree, the stated
data-model invariant) and every organization plan P,
`applyOrganizationPlan(T, P)` with `handleDuplicates = merge` returns a
tree in which every bookmark id of T not listed in any DuplicateGroup's
duplicates list of P appears exactly once, and no bookmark id appears more
than once. -/
theorem applyPlan_merge_preserves_nonduplicate_ids
    (T : List BookmarkNode) (P : OrganizationPlan)
    (hN : (bookmarkIds T).Nodup) :
    (∀ x ∈ bookmarkIds T, x ∉ duplicateIdSet P.duplicates →
       countOcc x (bookmarkIds (applyOrganizationPlan T P .merge)) = 1)
    ∧ (∀ x, countOcc x (bookmarkIds (applyOrganizationPlan T P .merge)) ≤ 1) := by
  have hplan := fun x => countOcc_applyPlan_merge x T P
  constructor
  · intro x hx hxD
    have hT : countOcc x (bookmarkIds T) = 1 := countOcc_eq_one_of_nodup_mem hN hx
    have hT0 : countOcc x (bookmarkIds
        (applyDuplicateMerging T (duplicateIdSet P.duplicates))) = 1 := by
      rw [countOcc_applyDuplicateMerging, if_neg hxD, hT]
    rw [hplan]
    split
    · next hmem =>
        have hub := countOcc_collectMoves_le x (lookupSuggestion P.suggestions)
          (applyDuplicateMerging T (duplicateIdSet P.duplicates)) []
        have hlb := countOcc_pos_of_mem hmem
        omega
    · exact hT0
  · intro x
    have hT : countOcc x (bookmarkIds T) ≤ 1 := countOcc_le_one_of_nodup hN
    have hT0 : countOcc x (bookmarkIds
        (applyDuplicateMerging T (duplicateIdSet P.duplicates))) ≤ 1 := by
      rw [countOcc_applyDuplicateMerging]
      split <;> omega
    rw [hplan]
    split
    · next hmem =>
        have hub := countOcc_collectMoves_le x (lookupSuggestion P.suggestions)
          (applyDuplicateMerging T (duplicateIdSet P.duplicates)) []
        omega
    · exact hT0

theorem collectMoves_bookmark_none {lk : String → Option OrganizationSuggestion}
    {b : Bookmark} (h : lk b.id = none) (rest : List BookmarkNode)
    (p : List String) :
    collectMoves lk (BookmarkNode.bookmark b :: rest) p = collectMoves lk rest p := by
  simp [collectMoves, h]

theorem collectMoves_bookmark_some_eq {lk : String → Option OrganizationSuggestion}
    {b : Bookmark} {s : OrganizationSuggestion} (h : lk b.id = some s)
    (rest : List BookmarkNode) (p : List String)
    (he : strJoinSep pathSep (strSplitOn s.suggestedCategory pathSep) =
      strJoinSep pathSep p) :
    collectMoves lk (BookmarkNode.bookmark b :: rest) p = collectMoves lk rest p := by
  simp [collectMoves, h, he]

theorem collectMoves_bookmark_some_ne {lk : String → Option OrganizationSuggestion}
    {b : Bookmark} {s : OrganizationSuggestion} (h : lk b.id = some s)
    (rest : List BookmarkNode) (p : List String)
    (he : strJoinSep pathSep (strSplitOn s.suggestedCategory pathSep) ≠
      strJoinSep pathSep p) :
    collectMoves lk (BookmarkNode.bookmark b :: rest) p =
      (b, strSplitOn s.suggestedCategory pathSep) :: collectMoves lk rest p := by
  simp [collectMoves, h, he]

theorem collectMoves_folder (lk : String → Option OrganizationSuggestion)
    (fid nm : String) (ch : List BookmarkNode) (ad : Option String)
    (rest : List BookmarkNode) (p : List String) :
    collectMoves lk (BookmarkNode.folder fid nm ch ad :: rest) p =
      collectMoves lk ch (p ++ [nm]) ++ collectMoves lk rest p := by
  simp [collectMoves]

theorem collectMoves_append (lk : String → Option OrganizationSuggestion)
    (l1 l2 : List BookmarkNode) (p : List String) :
    collectMoves lk (l1 ++ l2) p = collectMoves lk l1 p ++ collectMoves lk l2 p := by
  induction l1 using nodeListInduction with
  | h0 => simp [collectMoves]
  | hb b rest ih =>
      cases hlk : lk b.id with
      | none =>
          rw [List.cons_append, collectMoves_bookmark_none hlk,
            collectMoves_bookmark_none hlk, ih]
      | some s =>
          by_cases he : strJoinSep pathSep
              (strSplitOn s.suggestedCategory pathSep) = strJoinSep pathSep p
          · rw [List.cons_append, collectMoves_bookmark_some_eq hlk _ _ he,
              collectMoves_bookmark_some_eq hlk _ _ he, ih]
          · rw [List.cons_append, collectMoves_bookmark_some_ne hlk _ _ he,
              collectMoves_bookmark_some_ne hlk _ _ he, ih, List.cons_append]
  | hf fid nm ch ad rest ihc ihr =>
      rw [List.cons_append, collectMoves_folder, collectMoves_folder, ihr,
        List.append_assoc]

theorem collectMoves_removeBookmarkById
    (lk : String → Option OrganizationSuggestion) (y : String)
    (ns : List BookmarkNode) :
    ∀ p, collectMoves lk (removeBookmarkById ns y) p =
      (collectMoves lk ns p).filter (fun m => m.1.id ≠ y) := by
  induction ns using nodeListInduction with
  | h0 => intro p; simp [removeBookmarkById, collectMoves]
  | hb b rest ih =>
      intro p
      by_cases hby : b.id = y
      · rw [show removeBookmarkById (BookmarkNode.bookmark b :: rest) y =
            removeBookmarkById rest y by simp [removeBookmarkById, hby]]
        rw [ih]
        cases hlk : lk b.id with
        | none => rw [collectMoves_bookmark_none hlk]
        | some s =>
            by_cases he : strJoinSep pathSep
                (strSplitOn s.suggestedCategory pathSep) = strJoinSep pathSep p
            · rw [collectMoves_bookmark_some_eq hlk _ _ he]
            · rw [collectMoves_bookmark_some_ne hlk _ _ he]
              simp [hby]
      · rw [show removeBookmarkById (BookmarkNode.bookmark b :: rest) y =
            BookmarkNode.bookmark b :: removeBookmarkById rest y by
              simp [removeBookmarkById, hby]]
        cases hlk : lk b.id with
        | none =>
            rw [collectMoves_bookmark_none hlk, collectMoves_bookmark_none hlk, ih]
        | some s =>
            by_cases he : strJoinSep pathSep
                (strSplitOn s.suggestedCategory pathSep) = strJoinSep pathSep p
            · rw [collectMoves_bookmark_some_eq hlk _ _ he,
                collectMoves_bookmark_some_eq hlk _ _ he, ih]
            · rw [collectMoves_bookmark_some_ne hlk _ _ he,
                collectMoves_bookmark_some_ne hlk _ _ he, ih]
              simp [hby]
  | hf fid nm ch ad rest ihc ihr =>
      intro p
      rw [show removeBookmarkById (BookmarkNode.folder fid nm ch ad :: rest) y =
          BookmarkNode.folder fid nm (removeBookmarkById ch y) ad ::
            removeBookmarkById rest y by simp [removeBookmarkById]]
      rw [collectMoves_folder, collectMoves_folder, ihc, ihr, List.filter_append]

theorem collectMoves_removals_fold
    (lk : String → Option OrganizationSuggestion)
    (ms : List (Bookmark × List String)) :
    ∀ (ns : List BookmarkNode) (p : List String),
    collectMoves lk (ms.foldl (fun acc m => removeBookmarkById acc m.1.id) ns) p =
      (collectMoves lk ns p).filter
        (fun m => m.1.id ∉ ms.map (fun m => m.1.id)) := by
  induction ms with
  | nil =>
      intro ns p
      simp
  | cons m ms ih =>
      intro ns p
      rw [List.foldl_cons, ih, collectMoves_removeBookmarkById, List.filter_filter]
      apply List.filter_congr
      intro a _
      by_cases h1 : a.1.id = m.1.id <;>
        by_cases h2 : a.1.id ∈ ms.map (fun m => m.1.id) <;>
          simp [h1, h2]

theorem collectMoves_self_filter
    (lk : String → Option OrganizationSuggestion) (ns : List BookmarkNode) :
    (collectMoves lk ns []).filter
      (fun m => m.1.id ∉ (collectMoves lk ns []).map (fun m => m.1.id)) = [] := by
  rw [List.filter_eq_nil_iff]
  intro m hm
  simp only [Bool.not_eq_true, decide_eq_false_iff_not, Decidable.not_not]
  exact List.mem_map.mpr ⟨m, hm, rfl⟩

theorem collectMoves_member_target
    (lk : String → Option OrganizationSuggestion) (ns : List BookmarkNode) :
    ∀ p m, m ∈ collectMoves lk ns p →
      ∃ s, lk m.1.id = some s ∧ m.2 = strSplitOn s.suggestedCategory pathSep := by
  induction ns using nodeListInduction with
  | h0 => intro p m hm; simp [collectMoves] at hm
  | hb b rest ih =>
      intro p m hm
      cases hlk : lk b.id with
      | none =>
          rw [collectMoves_bookmark_none hlk] at hm
          exact ih p m hm
      | some s =>
          by_cases he : strJoinSep pathSep
              (strSplitOn s.suggestedCategory pathSep) = strJoinSep pathSep p
          · rw [collectMoves_bookmark_some_eq hlk _ _ he] at hm
            exact ih p m hm
          · rw [collectMoves_bookmark_some_ne hlk _ _ he] at hm
            rcases List.mem_cons.mp hm with h1 | h1
            · subst h1
              exact ⟨s, hlk, rfl⟩
            · exact ih p m h1
  | hf fid nm ch ad rest ihc ihr =>
      intro p m hm
      rw [collectMoves_folder] at hm
      rcases List.mem_append.mp hm with h1 | h1
      · exact ihc (p ++ [nm]) m h1
      · exact ihr p m h1

theorem collectMoves_addBookmarkToPath
    (lk : String → Option OrganizationSuggestion) (b : Bookmark) :
    ∀ (q : List String) (ns : List BookmarkNode) (p : List String),
    (∀ s, lk b.id = some s →
      strJoinSep pathSep (strSplitOn s.suggestedCategory pathSep) =
        strJoinSep pathSep (p ++ q)) →
    collectMoves lk (addBookmarkToPath ns b q) p = collectMoves lk ns p := by
  intro q
  induction q with
  | nil =>
      intro ns p hb
      rw [show addBookmarkToPath ns b [] = ns ++ [BookmarkNode.bookmark b] by
        simp [addBookmarkToPath]]
      rw [collectMoves_append]
      cases hlk : lk b.id with
      | none => rw [collectMoves_bookmark_none hlk]; simp [collectMoves]
      | some s =>
          have := hb s hlk
          rw [List.append_nil] at this
          rw [collectMoves_bookmark_some_eq hlk _ _ this]
          simp [collectMoves]
  | cons f rest ihq =>
      intro ns
      induction ns using nodeListInduction with
      | h0 =>
          intro p hb
          rw [show addBookmarkToPath [] b (f :: rest) =
              [BookmarkNode.folder freshFolderId f (addBookmarkToPath [] b rest)
                (some freshAddDate)] by simp [addBookmarkToPath]]
          rw [collectMoves_folder]
          rw [ihq [] (p ++ [f]) (by
            intro s hs
            rw [hb s hs, List.append_assoc]
            rfl)]
          simp [collectMoves]
      | hb b0 tail ihtail =>
          intro p hb
          rw [show addBookmarkToPath (BookmarkNode.bookmark b0 :: tail) b (f :: rest) =
              BookmarkNode.bookmark b0 :: addBookmarkToPath tail b (f :: rest) by
                simp [addBookmarkToPath]]
          cases hlk : lk b0.id with
          | none =>
              rw [collectMoves_bookmark_none hlk, collectMoves_bookmark_none hlk,
                ihtail p hb]
          | some s =>
              by_cases he : strJoinSep pathSep
                  (strSplitOn s.suggestedCategory pathSep) = strJoinSep pathSep p
              · rw [collectMoves_bookmark_some_eq hlk _ _ he,
                  collectMoves_bookmark_some_eq hlk _ _ he, ihtail p hb]
              · rw [collectMoves_bookmark_some_ne hlk _ _ he,
                  collectMoves_bookmark_some_ne hlk _ _ he, ihtail p hb]
      | hf fid nm ch ad tail ihch ihtail =>
          intro p hb
          by_cases hnm : nm = f
          · rw [show addBookmarkToPath (BookmarkNode.folder fid nm ch ad :: tail) b
                (f :: rest) =
                BookmarkNode.folder fid nm (addBookmarkToPath ch b rest) ad :: tail by
                  simp [addBookmarkToPath, hnm]]
            rw [collectMoves_folder, collectMoves_folder]
            rw [ihq ch (p ++ [nm]) (by
              intro s hs
              rw [hb s hs, hnm, List.append_assoc]
              rfl)]
          · rw [show addBookmarkToPath (BookmarkNode.folder fid nm ch ad :: tail) b
                (f :: rest) =
                BookmarkNode.folder fid nm ch ad ::
                  addBookmarkToPath tail b (f :: rest) by
                  simp [addBookmarkToPath, hnm]]
            rw [collectMoves_folder, collectMoves_folder, ihtail p hb]

theorem collectMoves_ensureFolderPath
    (lk : String → Option OrganizationSuggestion) :
    ∀ (q : List String) (ns : List BookmarkNode) (p : List String),
    collectMoves lk (ensureFolderPath ns q) p = collectMoves lk ns p := by
  intro q
  induction q with
  | nil => intro ns p; simp [ensureFolderPath]
  | cons f rest ihq =>
      intro ns
      induction ns using nodeListInduction with
      | h0 =>
          intro p
          rw [show ensureFolderPath [] (f :: rest) =
              [BookmarkNode.folder freshFolderId f (ensureFolderPath [] rest)
                (some freshAddDate)] by simp [ensureFolderPath]]
          rw [collectMoves_folder, ihq [] (p ++ [f])]
          simp [collectMoves]
      | hb b0 tail ihtail =>
          intro p
          rw [show ensureFolderPath (BookmarkNode.bookmark b0 :: tail) (f :: rest) =
              BookmarkNode.bookmark b0 :: ensureFolderPath tail (f :: rest) by
                simp [ensureFolderPath]]
          cases hlk : lk b0.id with
          | none =>
              rw [collectMoves_bookmark_none hlk, collectMoves_bookmark_none hlk,
                ihtail p]
          | some s =>
              by_cases he : strJoinSep pathSep
                  (strSplitOn s.suggestedCategory pathSep) = strJoinSep pathSep p
              · rw [collectMoves_bookmark_some_eq hlk _ _ he,
                  collectMoves_bookmark_some_eq hlk _ _ he, ihtail p]
              · rw [collectMoves_bookmark_some_ne hlk _ _ he,
                  collectMoves_bookmark_some_ne hlk _ _ he, ihtail p]
      | hf fid nm ch ad tail ihch ihtail =>
          intro p
          by_cases hnm : nm = f
          · rw [show ensureFolderPath (BookmarkNode.folder fid nm ch ad :: tail)
                (f :: rest) =
                BookmarkNode.folder fid nm (ensureFolderPath ch rest) ad :: tail by
                  simp [ensureFolderPath, hnm]]
            rw [collectMoves_folder, collectMoves_folder, ihq ch (p ++ [nm])]
          · rw [show ensureFolderPath (BookmarkNode.folder fid nm ch ad :: tail)
                (f :: rest) =
                BookmarkNode.folder fid nm ch ad ::
                  ensureFolderPath tail (f :: rest) by
                  simp [ensureFolderPath, hnm]]
            rw [collectMoves_folder, collectMoves_folder, ihtail p]

theorem collectMoves_createFolderStructure
    (lk : String → Option OrganizationSuggestion) (nf : List String) :
    ∀ (ns : List BookmarkNode) (p : List String),
    collectMoves lk (createFolderStructure ns nf) p = collectMoves lk ns p := by
  induction nf with
  | nil => intro ns p; simp [createFolderStructure]
  | cons f rest ih =>
      intro ns p
      show collectMoves lk
        (createFolderStructure (ensureFolderPath ns (strSplitOn f pathSep)) rest) p = _
      rw [ih, collectMoves_ensureFolderPath]

theorem collectMoves_additions_fold
    (lk : String → Option OrganizationSuggestion) :
    ∀ (ms : List (Bookmark × List String)) (ns : List BookmarkNode),
    collectMoves lk ns [] = [] →
    (∀ m ∈ ms, ∃ s, lk m.1.id = some s ∧
      m.2 = strSplitOn s.suggestedCategory pathSep) →
    collectMoves lk
      (ms.foldl (fun acc m => addBookmarkToPath acc m.1 m.2) ns) [] = [] := by
  intro ms
  induction ms with
  | nil => intro ns h0 _; simpa using h0
  | cons m ms ih =>
      intro ns h0 hm
      rw [List.foldl_cons]
      apply ih
      · rw [collectMoves_addBookmarkToPath lk m.1 m.2 ns [] ?_, h0]
        intro s hs
        rcases hm m (List.mem_cons_self m ms) with ⟨s0, hs0, ht0⟩
        rw [hs0] at hs
        cases hs
        rw [ht0, List.nil_append]
      · intro m' hm'
        exact hm m' (List.mem_cons_of_mem m hm')

theorem applySuggestions_settled
    (suggs : List OrganizationSuggestion) (ns : List BookmarkNode) :
    collectMoves (lookupSuggestion suggs) (applySuggestions ns suggs) [] = [] := by
  show collectMoves (lookupSuggestion suggs)
    ((collectMoves (lookupSuggestion suggs) ns []).foldl
      (fun acc m => addBookmarkToPath acc m.1 m.2)
      ((collectMoves (lookupSuggestion suggs) ns []).foldl
        (fun acc m => removeBookmarkById acc m.1.id) ns)) [] = []
  apply collectMoves_additions_fold
  · rw [collectMoves_removals_fold, collectMoves_self_filter]
  · intro m hm
    exact collectMoves_member_target (lookupSuggestion suggs) ns [] m hm

theorem applySuggestions_of_no_moves
    (suggs : List OrganizationSuggestion) (ns : List BookmarkNode)
    (h : collectMoves (lookupSuggestion suggs) ns [] = []) :
    applySuggestions ns suggs = ns := by
  show (collectMoves (lookupSuggestion suggs) ns []).foldl
      (fun acc m => addBookmarkToPath acc m.1 m.2)
      ((collectMoves (lookupSuggestion suggs) ns []).foldl
        (fun acc m => removeBookmarkById acc m.1.id) ns) = ns
  rw [h]
  rfl

theorem findFolder_ensureFolderPath (g : String) (qrest : List String)
    (f : String) (ns : List BookmarkNode) :
    findFolder? (ensureFolderPath ns (g :: qrest)) f =
      if f = g then
        some (match findFolder? ns g with
          | some ch => ensureFolderPath ch qrest
          | none => ensureFolderPath [] qrest)
      else findFolder? ns f := by
  induction ns using nodeListInduction with
  | h0 =>
      rw [show ensureFolderPath [] (g :: qrest) =
          [BookmarkNode.folder freshFolderId g (ensureFolderPath [] qrest)
            (some freshAddDate)] by simp [ensureFolderPath]]
      by_cases hfg : f = g
      · simp [findFolder?, hfg]
      · have : ¬ g = f := fun h => hfg h.symm
        simp [findFolder?, hfg, this]
  | hb b0 tail ih =>
      rw [show ensureFolderPath (BookmarkNode.bookmark b0 :: tail) (g :: qrest) =
          BookmarkNode.bookmark b0 :: ensureFolderPath tail (g :: qrest) by
            simp [ensureFolderPath]]
      rw [show findFolder? (BookmarkNode.bookmark b0 ::
          ensureFolderPath tail (g :: qrest)) f =
          findFolder? (ensureFolderPath tail (g :: qrest)) f by simp [findFolder?]]
      rw [ih]
      rw [show findFolder? (BookmarkNode.bookmark b0 :: tail) f =
          findFolder? tail f by simp [findFolder?]]
      rw [show findFolder? (BookmarkNode.bookmark b0 :: tail) g =
          findFolder? tail g by simp [findFolder?]]
  | hf fid nm ch ad tail ih1 ih2 =>
      by_cases hg : nm = g
      · rw [show ensureFolderPath (BookmarkNode.folder fid nm ch ad :: tail)
            (g :: qrest) =
            BookmarkNode.folder fid nm (ensureFolderPath ch qrest) ad :: tail by
              simp [ensureFolderPath, hg]]
        by_cases hfg : f = g
        · have hnf : nm = f := by rw [hg, hfg]
          rw [show findFolder? (BookmarkNode.folder fid nm (ensureFolderPath ch qrest)
              ad :: tail) f = some (ensureFolderPath ch qrest) by
                simp [findFolder?, hnf]]
          rw [show findFolder? (BookmarkNode.folder fid nm ch ad :: tail) g =
              some ch by simp [findFolder?, hg]]
          simp [hfg]
        · have hnf : ¬ nm = f := by rw [hg]; exact fun h => hfg h.symm
          rw [show findFolder? (BookmarkNode.folder fid nm (ensureFolderPath ch qrest)
              ad :: tail) f = findFolder? tail f by simp [findFolder?, hnf]]
          rw [if_neg hfg]
          rw [show findFolder? (BookmarkNode.folder fid nm ch ad :: tail) f =
              findFolder? tail f by simp [findFolder?, hnf]]
      · rw [show ensureFolderPath (BookmarkNode.folder fid nm ch ad :: tail)
            (g :: qrest) =
            BookmarkNode.folder fid nm ch ad ::
              ensureFolderPath tail (g :: qrest) by
              simp [ensureFolderPath, hg]]
        by_cases hnf : nm = f
        · have hfg : ¬ f = g := fun h => hg (by rw [hnf, h])
          rw [show findFolder? (BookmarkNode.folder fid nm ch ad ::
              ensureFolderPath tail (g :: qrest)) f = some ch by
                simp [findFolder?, hnf]]
          rw [if_neg hfg]
          rw [show findFolder? (BookmarkNode.folder fid nm ch ad :: tail) f =
              some ch by simp [findFolder?, hnf]]
        · rw [show findFolder? (BookmarkNode.folder fid nm ch ad ::
              ensureFolderPath tail (g :: qrest)) f =
              findFolder? (ensureFolderPath tail (g :: qrest)) f by
                simp [findFolder?, hnf]]
          rw [ih2]
          rw [show findFolder? (BookmarkNode.folder fid nm ch ad :: tail) f =
              findFolder? tail f by simp [findFolder?, hnf]]
          rw [show findFolder? (BookmarkNode.folder fid nm ch ad :: tail) g =
              findFolder? tail g by simp [findFolder?, hg]]

theorem ensureFolderPath_step (f : String) (rest : List String)
    (ns : List BookmarkNode) :
    ∀ ch, findFolder? ns f = some ch → ensureFolderPath ch rest = ch →
      ensureFolderPath ns (f :: rest) = ns := by
  induction ns using nodeListInduction with
  | h0 => intro ch hch _; simp [findFolder?] at hch
  | hb b0 tail ih =>
      intro ch hch hrest
      rw [show findFolder? (BookmarkNode.bookmark b0 :: tail) f =
          findFolder? tail f by simp [findFolder?]] at hch
      rw [show ensureFolderPath (BookmarkNode.bookmark b0 :: tail) (f :: rest) =
          BookmarkNode.bookmark b0 :: ensureFolderPath tail (f :: rest) by
            simp [ensureFolderPath]]
      rw [ih ch hch hrest]
  | hf fid nm ch0 ad tail ih1 ih2 =>
      intro ch hch hrest
      by_cases hnf : nm = f
      · rw [show findFolder? (BookmarkNode.folder fid nm ch0 ad :: tail) f =
            some ch0 by simp [findFolder?, hnf]] at hch
        cases hch
        rw [show ensureFolderPath (BookmarkNode.folder fid nm ch0 ad :: tail)
            (f :: rest) =
            BookmarkNode.folder fid nm (ensureFolderPath ch0 rest) ad :: tail by
              simp [ensureFolderPath, hnf]]
        rw [hrest]
      · rw [show findFolder? (BookmarkNode.folder fid nm ch0 ad :: tail) f =
            findFolder? tail f by simp [findFolder?, hnf]] at hch
        rw [show ensureFolderPath (BookmarkNode.folder fid nm ch0 ad :: tail)
            (f :: rest) =
            BookmarkNode.folder fid nm ch0 ad ::
              ensureFolderPath tail (f :: rest) by
              simp [ensureFolderPath, hnf]]
        rw [ih2 ch hch hrest]

theorem ensureFolderPath_of_containsPath :
    ∀ (p : List String) (ns : List BookmarkNode),
      containsPathB ns p = true → ensureFolderPath ns p = ns := by
  intro p
  induction p with
  | nil => intro ns _; simp [ensureFolderPath]
  | cons f rest ih =>
      intro ns h
      cases hf : findFolder? ns f with
      | none => rw [show containsPathB ns (f :: rest) = false by
          simp [containsPathB, hf]] at h; cases h
      | some ch =>
          rw [show containsPathB ns (f :: rest) = containsPathB ch rest by
            simp [containsPathB, hf]] at h
          exact ensureFolderPath_step f rest ns ch hf (ih ch h)

theorem containsPath_ensureFolderPath :
    ∀ (p : List String) (ns : List BookmarkNode),
      containsPathB (ensureFolderPath ns p) p = true := by
  intro p
  induction p with
  | nil => intro ns; simp [containsPathB]
  | cons f rest ih =>
      intro ns
      have hff := findFolder_ensureFolderPath f rest f ns
      rw [if_pos rfl] at hff
      cases hns : findFolder? ns f with
      | none =>
          rw [hns] at hff
          rw [show containsPathB (ensureFolderPath ns (f :: rest)) (f :: rest) =
            containsPathB (ensureFolderPath [] rest) rest by
              simp [containsPathB, hff]]
          exact ih []
      | some ch =>
          rw [hns] at hff
          rw [show containsPathB (ensureFolderPath ns (f :: rest)) (f :: rest) =
            containsPathB (ensureFolderPath ch rest) rest by
              simp [containsPathB, hff]]
          exact ih ch

theorem containsPath_ensureFolderPath_preserved :
    ∀ (p : List String) (ns : List BookmarkNode) (q : List String),
      containsPathB ns p = true → containsPathB (ensureFolderPath ns q) p = true := by
  intro p
  induction p with
  | nil => intro ns q _; simp [containsPathB]
  | cons f rest ih =>
      intro ns q h
      cases hf : findFolder? ns f with
      | none => rw [show containsPathB ns (f :: rest) = false by
          simp [containsPathB, hf]] at h; cases h
      | some ch =>
          rw [show containsPathB ns (f :: rest) = containsPathB ch rest by
            simp [containsPathB, hf]] at h
          cases q with
          | nil => rw [show ensureFolderPath ns [] = ns by simp [ensureFolderPath]]
                   simp [containsPathB, hf, h]
          | cons g qrest =>
              have hff := findFolder_ensureFolderPath g qrest f ns
              by_cases hfg : f = g
              · rw [if_pos hfg] at hff
                rw [hfg] at hf
                rw [hf] at hff
                rw [show containsPathB (ensureFolderPath ns (g :: qrest))
                    (f :: rest) = containsPathB (ensureFolderPath ch qrest) rest by
                      simp [containsPathB, hff]]
                exact ih ch qrest h
              · rw [if_neg hfg] at hff
                rw [hf] at hff
                rw [show containsPathB (ensureFolderPath ns (g :: qrest))
                    (f :: rest) = containsPathB ch rest by
                      simp [containsPathB, hff]]
                exact h

theorem createFolderStructure_of_containsAll :
    ∀ (nf : List String) (ns : List BookmarkNode),
      (∀ p0 ∈ nf, containsPathB ns (strSplitOn p0 pathSep) = true) →
      createFolderStructure ns nf = ns := by
  intro nf
  induction nf with
  | nil => intro ns _; simp [createFolderStructure]
  | cons f rest ih =>
      intro ns h
      show createFolderStructure (ensureFolderPath ns (strSplitOn f pathSep)) rest = ns
      rw [ensureFolderPath_of_containsPath _ _ (h f (List.mem_cons_self f rest))]
      exact ih ns (fun p0 hp0 => h p0 (List.mem_cons_of_mem f hp0))

theorem containsPath_createFolderStructure_preserved :
    ∀ (nf : List String) (ns : List BookmarkNode) (p : List String),
      containsPathB ns p = true →
      containsPathB (createFolderStructure ns nf) p = true := by
  intro nf
  induction nf with
  | nil => intro ns p h; simpa [createFolderStructure] using h
  | cons f rest ih =>
      intro ns p h
      show containsPathB
        (createFolderStructure (ensureFolderPath ns (strSplitOn f pathSep)) rest) p = true
      exact ih _ p (containsPath_ensureFolderPath_preserved p ns _ h)

theorem containsPath_createFolderStructure :
    ∀ (nf : List String) (ns : List BookmarkNode) (p0 : String), p0 ∈ nf →
      containsPathB (createFolderStructure ns nf) (strSplitOn p0 pathSep) = true := by
  intro nf
  induction nf with
  | nil => intro ns p0 h; cases h
  | cons f rest ih =>
      intro ns p0 h
      show containsPathB
        (createFolderStructure (ensureFolderPath ns (strSplitOn f pathSep)) rest)
        (strSplitOn p0 pathSep) = true
      rcases List.mem_cons.mp h with h1 | h1
      · subst h1
        exact containsPath_createFolderStructure_preserved rest _ _
          (containsPath_ensureFolderPath _ ns)
      · exact ih _ p0 h1

theorem applyDuplicateMerging_of_absent (D : List String) :
    ∀ ns : List BookmarkNode,
      (∀ x ∈ D, countOcc x (bookmarkIds ns) = 0) →
      applyDuplicateMerging ns D = ns := by
  intro ns
  induction ns using nodeListInduction with
  | h0 => intro _; simp [applyDuplicateMerging]
  | hb b rest ih =>
      intro h
      have hbD : b.id ∉ D := by
        intro hmem
        have := h b.id hmem
        simp [bookmarkIds, countOcc] at this
      rw [show applyDuplicateMerging (BookmarkNode.bookmark b :: rest) D =
          BookmarkNode.bookmark b :: applyDuplicateMerging rest D by
            simp [applyDuplicateMerging, hbD]]
      rw [ih (fun x hx => by
        have := h x hx
        simp only [bookmarkIds, countOcc] at this
        omega)]
  | hf fid nm ch ad rest ihc ihr =>
      intro h
      have hsplit : ∀ x ∈ D, countOcc x (bookmarkIds ch) = 0 ∧
          countOcc x (bookmarkIds rest) = 0 := by
        intro x hx
        have := h x hx
        rw [show bookmarkIds (BookmarkNode.folder fid nm ch ad :: rest) =
            bookmarkIds ch ++ bookmarkIds rest by simp [bookmarkIds]] at this
        rw [countOcc_append] at this
        omega
      rw [show applyDuplicateMerging (BookmarkNode.folder fid nm ch ad :: rest) D =
          BookmarkNode.folder fid nm (applyDuplicateMerging ch D) ad ::
            applyDuplicateMerging rest D by simp [applyDuplicateMerging]]
      rw [ihc (fun x hx => (hsplit x hx).1), ihr (fun x hx => (hsplit x hx).2)]

theorem countOcc_applyPlan_merge_dup (T : List BookmarkNode)
    (P : OrganizationPlan) :
    ∀ x ∈ duplicateIdSet P.duplicates,
      countOcc x (bookmarkIds (applyOrganizationPlan T P .merge)) = 0 := by
  intro x hx
  rw [countOcc_applyPlan_merge]
  have hT0 : countOcc x (bookmarkIds
      (applyDuplicateMerging T (duplicateIdSet P.duplicates))) = 0 := by
    rw [countOcc_applyDuplicateMerging, if_pos hx]
  split
  · next hmem =>
      have hub := countOcc_collectMoves_le x (lookupSuggestion P.suggestions)
        (applyDuplicateMerging T (duplicateIdSet P.duplicates)) []
      have hlb := countOcc_pos_of_mem hmem
      omega
  · exact hT0

/-- C7: applyOrganizationPlan is idempotent on bookmark placement: applying
the same plan (with the default merge handling) a second time collects no
bookmark moves at all — in particular it moves no bookmark already at its
suggested path — and creates no new folders: the second application returns
the tree unchanged. -/
theorem applyPlan_merge_idempotent (T : List BookmarkNode)
    (P : OrganizationPlan) :
    collectMoves (lookupSuggestion P.suggestions)
      (applyDuplicateMerging (applyOrganizationPlan T P .merge)
        (duplicateIdSet P.duplicates)) [] = [] ∧
    applyOrganizationPlan (applyOrganizationPlan T P .merge) P .merge =
      applyOrganizationPlan T P .merge := by
  have hmerge : applyDuplicateMerging (applyOrganizationPlan T P .merge)
      (duplicateIdSet P.duplicates) = applyOrganizationPlan T P .merge :=
    applyDuplicateMerging_of_absent _ _
      (fun x hx => countOcc_applyPlan_merge_dup T P x hx)
  have hT1 : applyOrganizationPlan T P .merge = createFolderStructure
      (applySuggestions (applyDuplicateMerging T (duplicateIdSet P.duplicates))
        P.suggestions) P.newFolders := rfl
  have hsettled : collectMoves (lookupSuggestion P.suggestions)
      (applyOrganizationPlan T P .merge) [] = [] := by
    rw [hT1, collectMoves_createFolderStructure]
    exact applySuggestions_settled _ _
  refine ⟨by rw [hmerge]; exact hsettled, ?_⟩
  show createFolderStructure (applySuggestions
      (applyDuplicateMerging (applyOrganizationPlan T P .merge)
        (duplicateIdSet P.duplicates)) P.suggestions) P.newFolders = _
  rw [hmerge, applySuggestions_of_no_moves _ _ hsettled]
  apply createFolderStructure_of_containsAll
  intro p0 hp0
  rw [hT1]
  exact containsPath_createFolderStructure _ _ p0 hp0

/-! ### Duplicate-detector lemmas -/

theorem lenScore_le_selectPrimary :
    ∀ (rest : List Bookmark) (b0 : Bookmark),
      lenScore b0 ≤ lenScore (selectPrimaryBookmark b0 rest) := by
  intro rest
  induction rest with
  | nil => intro b0; exact Nat.le_refl _
  | cons c cs ih =>
      intro b0
      have hsel : selectPrimaryBookmark b0 (c :: cs) =
          selectPrimaryBookmark (if lenScore b0 < lenScore c then c else b0) cs := by
        simp [selectPrimaryBookmark]
      rw [hsel]
      by_cases hlt : lenScore b0 < lenScore c
      · rw [if_pos hlt]
        exact Nat.le_trans (Nat.le_of_lt hlt) (ih c)
      · rw [if_neg hlt]
        exact ih b0

theorem selectPrimaryBookmark_spec :
    ∀ (rest : List Bookmark) (b0 : Bookmark),
    ∃ l1 l2, b0 :: rest = l1 ++ selectPrimaryBookmark b0 rest :: l2 ∧
      (∀ b ∈ l1, lenScore b < lenScore (selectPrimaryBookmark b0 rest)) ∧
      (∀ b ∈ l2, lenScore b ≤ lenScore (selectPrimaryBookmark b0 rest)) := by
  intro rest
  induction rest with
  | nil =>
      intro b0
      exact ⟨[], [], rfl, by simp, by simp⟩
  | cons c cs ih =>
      intro b0
      have hsel : selectPrimaryBookmark b0 (c :: cs) =
          selectPrimaryBookmark (if lenScore b0 < lenScore c then c else b0) cs := by
        simp [selectPrimaryBookmark]
      by_cases hlt : lenScore b0 < lenScore c
      · rw [if_pos hlt] at hsel
        rcases ih c with ⟨l1, l2, heq, h1, h2⟩
        have hcle : lenScore c ≤ lenScore (selectPrimaryBookmark c cs) :=
          lenScore_le_selectPrimary cs c
        refine ⟨b0 :: l1, l2, ?_, ?_, ?_⟩
        · rw [hsel, List.cons_append]
          exact congrArg (List.cons b0) heq
        · intro b hb
          rw [hsel]
          rcases List.mem_cons.mp hb with h | h
          · subst h
            exact Nat.lt_of_lt_of_le hlt hcle
          · exact h1 b h
        · intro b hb
          rw [hsel]
          exact h2 b hb
      · rw [if_neg hlt] at hsel
        rcases ih b0 with ⟨l1, l2, heq, h1, h2⟩
        cases l1 with
        | nil =>
            simp only [List.nil_append] at heq
            have hb0 : b0 = selectPrimaryBookmark b0 cs := (List.cons_eq_cons.mp heq).1
            have hcs : cs = l2 := (List.cons_eq_cons.mp heq).2
            refine ⟨[], c :: cs, ?_, by simp, ?_⟩
            · rw [List.nil_append, hsel, ← hb0]
            · intro b hb
              rw [hsel, ← hb0]
              rcases List.mem_cons.mp hb with h | h
              · subst h
                exact Nat.le_of_not_lt hlt
              · have := h2 b (hcs ▸ h)
                rw [← hb0] at this
                exact this
        | cons x l1tl =>
            rw [List.cons_append] at heq
            have hx : b0 = x := (List.cons_eq_cons.mp heq).1
            have hcs : cs = l1tl ++ selectPrimaryBookmark b0 cs :: l2 :=
              (List.cons_eq_cons.mp heq).2
            have hb0lt : lenScore b0 < lenScore (selectPrimaryBookmark b0 cs) :=
              hx ▸ h1 x (List.mem_cons_self x l1tl)
            refine ⟨b0 :: c :: l1tl, l2, ?_, ?_, ?_⟩
            · rw [hsel, List.cons_append, List.cons_append]
              exact congrArg (List.cons b0) (congrArg (List.cons c) hcs)
            · intro b hb
              rw [hsel]
              rcases List.mem_cons.mp hb with h | h
              · subst h
                exact hb0lt
              · rcases List.mem_cons.mp h with h' | h'
                · subst h'
                  exact Nat.lt_of_le_of_lt (Nat.le_of_not_lt hlt) hb0lt
                · exact h1 b (List.mem_cons_of_mem x h')
            · intro b hb
              rw [hsel]
              exact h2 b hb

/-- C6 counterexample: on the two-bookmark scenario input the detector
yields two DuplicateGroups (the exact-URL pass and the domain pass both
fire), and the exact-URL primary is b2, not b1 — the claimed single group
with b1 as primary does not occur. -/
theorem detectDuplicates_scenario_two_groups_primary_b2 :
    (detectDuplicates [scnB1, scnB2]).map (fun g => g.primaryBookmark.id) =
      ["b2", "b2"] ∧
    (detectDuplicates [scnB1, scnB2]).map (fun g => g.primaryBookmark.id) ≠
      ["b1"] := by
  exact ⟨by decide, by decide⟩

/-- C6 amended: in the exact-URL pass, for every emitted group the primary
is the first-encountered member of its url group with the maximal score
(title length + tag count): every earlier member scores strictly less and
every later member scores at most as much; the duplicates are the rest of
the group. -/
theorem exactUrlGroups_primary_first_encountered_max
    (bs : List Bookmark) (g : DuplicateGroup) (hg : g ∈ exactUrlGroups bs) :
    ∃ k ∈ urlKeys bs, ∃ l1 l2,
      urlGroupOf bs k = l1 ++ g.primaryBookmark :: l2 ∧
      (∀ b ∈ l1, lenScore b < lenScore g.primaryBookmark) ∧
      (∀ b ∈ l2, lenScore b ≤ lenScore g.primaryBookmark) ∧
      g.duplicates = (urlGroupOf bs k).filter
        (fun b => b.id ≠ g.primaryBookmark.id) := by
  unfold exactUrlGroups at hg
  rcases List.mem_filterMap.mp hg with ⟨k, hk, hsome⟩
  refine ⟨k, hk, ?_⟩
  cases hgrp : urlGroupOf bs k with
  | nil =>
      rw [hgrp] at hsome
      simp at hsome
  | cons b0 tl =>
      cases tl with
      | nil =>
          rw [hgrp] at hsome
          simp at hsome
      | cons b1 rest =>
          rw [hgrp] at hsome
          have hrec : DuplicateGroup.mk (selectPrimaryBookmark b0 (b1 :: rest))
              ((b0 :: b1 :: rest).filter
                (fun b => b.id ≠ (selectPrimaryBookmark b0 (b1 :: rest)).id))
              MergeStrategy.keep_primary = g :=
            Option.some.inj hsome
          rcases selectPrimaryBookmark_spec (b1 :: rest) b0 with ⟨l1, l2, heq, h1, h2⟩
          subst hrec
          exact ⟨l1, l2, heq, h1, h2, rfl⟩

/-- Instantiation of the amended C6 statement at the scenario input. -/
theorem exactUrlGroups_primary_first_encountered_max_witness :
    scnGroup ∈ exactUrlGroups [scnB1, scnB2] ∧
    ∃ k ∈ urlKeys [scnB1, scnB2], ∃ l1 l2,
      urlGroupOf [scnB1, scnB2] k = l1 ++ scnGroup.primaryBookmark :: l2 ∧
      (∀ b ∈ l1, lenScore b < lenScore scnGroup.primaryBookmark) ∧
      (∀ b ∈ l2, lenScore b ≤ lenScore scnGroup.primaryBookmark) ∧
      scnGroup.duplicates = (urlGroupOf [scnB1, scnB2] k).filter
        (fun b => b.id ≠ scnGroup.primaryBookmark.id) :=
  ⟨by decide,
   exactUrlGroups_primary_first_encountered_max [scnB1, scnB2] scnGroup (by decide)⟩

/-- C10: on a flat list with two same-URL bookmarks whose scores diverge
between the passes, the exact-URL pass picks d1 as primary while the
domain pass picks d2, each listing the other as a duplicate; merging the
resulting plan removes every bookmark with that URL, both primaries
included. -/
theorem crossPass_merge_removes_both_primaries :
    (detectDuplicates [crossA, crossB]).map
      (fun g => (g.primaryBookmark.id, g.duplicates.map (fun d => d.id))) =
      [("d1", ["d2"]), ("d2", ["d1"])] ∧
    "d1" ∈ duplicateIdSet (detectDuplicates [crossA, crossB]) ∧
    "d2" ∈ duplicateIdSet (detectDuplicates [crossA, crossB]) ∧
    applyOrganizationPlan [.bookmark crossA, .bookmark crossB] crossPlan .merge
      = [] := by
  refine ⟨by decide, by decide, by decide, ?_⟩
  have hdup : duplicateIdSet crossPlan.duplicates = ["d2", "d1"] := by decide
  rw [show applyOrganizationPlan [.bookmark crossA, .bookmark crossB]
      crossPlan .merge =
      createFolderStructure (applySuggestions
        (applyDuplicateMerging [.bookmark crossA, .bookmark crossB]
          (duplicateIdSet crossPlan.duplicates)) crossPlan.suggestions)
        crossPlan.newFolders from rfl]
  rw [hdup, show crossPlan.suggestions = [] from rfl,
    show crossPlan.newFolders = [] from rfl]
  simp [applyDuplicateMerging, applySuggestions, collectMoves,
    lookupSuggestion, createFolderStructure, crossA, crossB]

/-- C3: at a raw response that fails JSON.parse but matches the fallback
confidence regex with the out-of-range number 1.5, `parseAISuggestion`
returns confidence 1.5 — the regex fallback tier applies no clamp. -/
theorem parseAISuggestion_fallback_unclamped :
    (parseAISuggestion c3resp ("b1")).confidence = mkRat 3 2 ∧
    1 < (parseAISuggestion c3resp ("b1")).confidence := by
  exact ⟨by decide, by decide⟩

/-- C9: when every fetch attempt ends in an AbortError (an aborted
request), the wrapper with `retries = 3` makes four attempts — it retries
explicit cancellation instead of returning at once, contrary to its own
comment — and finally rethrows the abort error. -/
theorem fetchWithRetry_retries_aborted :
    fetchWithRetry (fun _ => FetchOutcome.abortError) 3 =
      (Except.error FetchOutcome.abortError, 4) := by
  simp [fetchWithRetry, fetchRetryGo]

/-- Instantiation of C1 at a concrete tree and plan: a1 is moved by a
suggestion and survives exactly once; a2 is removed as a duplicate. -/
theorem applyPlan_merge_preserves_nonduplicate_ids_witness :
    (bookmarkIds w1tree).Nodup ∧
    countOcc ("a1") (bookmarkIds (applyOrganizationPlan w1tree w1plan .merge)) = 1 ∧
    countOcc ("a2") (bookmarkIds (applyOrganizationPlan w1tree w1plan .merge)) ≤ 1 :=
  have hN : (bookmarkIds w1tree).Nodup := by
    simp [w1tree, bookmarkIds, w1b1, w1b2]
  ⟨hN,
   (applyPlan_merge_preserves_nonduplicate_ids w1tree w1plan hN).1 ("a1")
     (by simp [w1tree, bookmarkIds, w1b1])
     (by simp [w1plan, duplicateIdSet, w1b1, w1b2]),
   (applyPlan_merge_preserves_nonduplicate_ids w1tree w1plan hN).2 ("a2")⟩

/-- C5: the conflict identifier reports a conflict for a suggestion exactly
when the bookmark's current folder path (joined by the suggestion
delimiter) differs from the suggested category string; the suggestion's
confidence plays no role — no confidence gate is applied. -/
theorem identifyConflicts_reports_all_mismatches
    (suggs : List OrganizationSuggestion) (tree : List BookmarkNode)
    (s : OrganizationSuggestion) (hs : s ∈ suggs) :
    currentLocation tree s.bookmarkId ≠ s.suggestedCategory ↔
      ({ bookmarkId := s.bookmarkId
       , currentCategory := currentLocation tree s.bookmarkId
       , suggestedCategory := s.suggestedCategory
       , confidence := s.confidence } : OrganizationConflict) ∈
        identifyConflicts suggs tree := by
  unfold identifyConflicts
  constructor
  · intro hne
    refine List.mem_filterMap.mpr ⟨s, hs, ?_⟩
    show (if currentLocation tree s.bookmarkId ≠ s.suggestedCategory
      then some _ else none) = some _
    rw [if_pos hne]
  · intro hmem
    rcases List.mem_filterMap.mp hmem with ⟨a, _, hfa⟩
    have hfa' : (if currentLocation tree a.bookmarkId ≠ a.suggestedCategory
        then some ({ bookmarkId := a.bookmarkId
                   , currentCategory := currentLocation tree a.bookmarkId
                   , suggestedCategory := a.suggestedCategory
                   , confidence := a.confidence } : OrganizationConflict)
        else none) =
        some { bookmarkId := s.bookmarkId
             , currentCategory := currentLocation tree s.bookmarkId
             , suggestedCategory := s.suggestedCategory
             , confidence := s.confidence } := hfa
    by_cases hca : currentLocation tree a.bookmarkId ≠ a.suggestedCategory
    · rw [if_pos hca] at hfa'
      have hrec := Option.some.inj hfa'
      have h1 : a.bookmarkId = s.bookmarkId :=
        congrArg OrganizationConflict.bookmarkId hrec
      have h3 : a.suggestedCategory = s.suggestedCategory :=
        congrArg OrganizationConflict.suggestedCategory hrec
      rw [← h1, ← h3]
      exact hca
    · rw [if_neg hca] at hfa'
      cases hfa'

/-- Instantiation of C5 at a mismatched suggestion whose confidence is only
0.1: the conflict is still reported. -/
theorem identifyConflicts_reports_all_mismatches_witness :
    w5sugg ∈ [w5sugg] ∧
    ({ bookmarkId := w5sugg.bookmarkId
     , currentCategory := currentLocation w5tree w5sugg.bookmarkId
     , suggestedCategory := w5sugg.suggestedCategory
     , confidence := w5sugg.confidence } : OrganizationConflict) ∈
      identifyConflicts [w5sugg] w5tree :=
  ⟨List.mem_cons_self w5sugg [],
   (identifyConflicts_reports_all_mismatches [w5sugg] w5tree w5sugg
     (List.mem_cons_self w5sugg [])).mp
     (by simp [currentLocation, buildLocationMap, lookupLoc, w5tree, w5sugg,
       strJoinSep])⟩

/-- C4: for a non-empty group of M configs, the config assigned to batch i
is the group's config at index i mod M; and whenever there are at least M
batches, every config of the group is assigned to some batch. -/
theorem roundRobin_mod_and_coverage (g : AiConfigGroup) (B : Nat)
    (hM : g.aiConfigIds ≠ []) :
    (∀ i, roundRobinConfigId g i =
      g.aiConfigIds.get ⟨i % g.aiConfigIds.length,
        Nat.mod_lt i (List.length_pos.mpr hM)⟩) ∧
    (g.aiConfigIds.length ≤ B → ∀ j (hj : j < g.aiConfigIds.length),
      ∃ i, i < B ∧ roundRobinConfigId g i = g.aiConfigIds.get ⟨j, hj⟩) := by
  have hpos : 0 < g.aiConfigIds.length := List.length_pos.mpr hM
  have hget : ∀ i, roundRobinConfigId g i =
      g.aiConfigIds.get ⟨i % g.aiConfigIds.length, Nat.mod_lt i hpos⟩ := by
    intro i
    unfold roundRobinConfigId
    rw [List.getD_eq_getElem _ _ (Nat.mod_lt i hpos)]
    simp
  refine ⟨hget, ?_⟩
  intro hB j hj
  refine ⟨j, Nat.lt_of_lt_of_le hj hB, ?_⟩
  rw [hget j]
  congr 1
  exact Fin.ext (Nat.mod_eq_of_lt hj)

/-- Instantiation of C4 at a two-config group: batch 5 runs on the second
config, and with three batches every config is used. -/
theorem roundRobin_mod_and_coverage_witness :
    roundRobinConfigId rrGroup 5 = "c1" ∧
    (∃ i, i < 3 ∧ roundRobinConfigId rrGroup i = "c1") :=
  ⟨((roundRobin_mod_and_coverage rrGroup 3 (by decide)).1 5).trans rfl,
   (roundRobin_mod_and_coverage rrGroup 3 (by decide)).2 (by decide) 1 (by decide)⟩

/-! ### Batch-response parsing lemmas -/

end BookmarkAI
